import Mathlib

/-
Verification development for the opor reactive local-first database adapter.

The definitions below are shallow embeddings of the TypeScript source:
  - src/utils.ts          deepEqual
  - src/live-query.ts     createLiveQuery / refetch / notifySubscribers
  - src/db.ts             onTablesChanged (the change router)
  - src/session.ts        CRSQLitePreparedQuery run/all/get/values and finalization
  - src/migrator.ts       migrate
  - src/types.ts          jsonStringifyWithBigInt / jsonParseWithBigInt
  - src/sync.ts           applyChangeset / getChangeset

JavaScript values that flow through these functions are modelled by the
mutually inductive types Val / ValList / FieldList (JSON-shaped data; NaN is
a distinguished constructor so that the NaN-equals-NaN clause of deepEqual is
representable; objects keep their properties in insertion order).  The JS
value undefined is modelled by Option (none = undefined) at the positions
where the source can produce it.  The first-order list types keep every
definition structurally recursive, hence computable by kernel reduction.
-/

mutual
/-- JSON-shaped JavaScript values, as compared by deepEqual in src/utils.ts. -/
inductive Val where
  | vNull : Val
  | vBool : Bool → Val
  | vNum : Int → Val
  | vNaN : Val
  | vStr : String → Val
  | vArr : ValList → Val
  | vObj : FieldList → Val
/-- A JS array of values. -/
inductive ValList where
  | nil : ValList
  | cons : Val → ValList → ValList
/-- The properties of a plain JS object, in insertion order. -/
inductive FieldList where
  | fnil : FieldList
  | fcons : String → Val → FieldList → FieldList
end

/-- Build a ValList from a Lean list (construction convenience only). -/
def ValList.ofList : List Val → ValList
  | [] => .nil
  | v :: vs => .cons v (ValList.ofList vs)

/-- Build a FieldList from a Lean list (construction convenience only). -/
def FieldList.ofList : List (String × Val) → FieldList
  | [] => .fnil
  | (k, v) :: fs => .fcons k v (FieldList.ofList fs)

/-- Array length, as used by the length comparison in deepEqual. -/
def ValList.length : ValList → Nat
  | .nil => 0
  | .cons _ vs => vs.length + 1

/-- Number of own keys of an object (Object.keys(a).length). -/
def FieldList.length : FieldList → Nat
  | .fnil => 0
  | .fcons _ _ fs => fs.length + 1

/-- Property lookup b[key] guarded by Object.prototype.hasOwnProperty. -/
def lookupField : FieldList → String → Option Val
  | .fnil, _ => none
  | .fcons k v rest, key => if k == key then some v else lookupField rest key

mutual
/-- deepEqual from src/utils.ts: recursive structural equality over
primitives, arrays (length plus element-wise) and plain objects (same key
set, recursive on values), with NaN equal to NaN (the final
a !== a && b !== b clause).  Mismatched constructors compare false. -/
def deepEqual : Val → Val → Bool
  | .vNull, .vNull => true
  | .vBool x, .vBool y => x == y
  | .vNum x, .vNum y => x == y
  | .vNaN, .vNaN => true
  | .vStr x, .vStr y => x == y
  | .vArr xs, .vArr ys => xs.length == ys.length && deepEqualList xs ys
  | .vObj xs, .vObj ys => xs.length == ys.length && deepEqualFields xs ys
  | _, _ => false
/-- The element loop of deepEqual over two arrays. -/
def deepEqualList : ValList → ValList → Bool
  | .nil, .nil => true
  | .cons x xs, .cons y ys => deepEqual x y && deepEqualList xs ys
  | _, _ => false
/-- The key loop of deepEqual: every key of the first object must exist on
the second with a deepEqual value.  The source guards the check with the
truthiness of the key itself (if (key && ...) return false), so the empty
string, the only falsy string, is skipped: an empty-string key never causes
a mismatch. -/
def deepEqualFields : FieldList → FieldList → Bool
  | .fnil, _ => true
  | .fcons k v rest, ys =>
    (k == "" ||
      match lookupField ys k with
      | some w => deepEqual v w
      | none => false) && deepEqualFields rest ys
end

/-- deepEqual extended to possibly-undefined arguments, exactly as the JS
function behaves on them: undefined === undefined is true, undefined never
deep-equals a defined value. -/
def deepEqualOpt : Option Val → Option Val → Bool
  | none, none => true
  | some a, some b => deepEqual a b
  | _, _ => false

/-- A JS Error object, reduced to its message. -/
structure JsError where
  message : String
deriving DecidableEq

/-- A thrown JS value: either an Error instance or some other value
(recorded by its String() conversion, which is all the wrapper uses). -/
inductive Thrown where
  | err : JsError → Thrown
  | nonError : String → Thrown
deriving DecidableEq

/-- The wrapping in the catch clause of refetch (src/live-query.ts line 79):
e instanceof Error ? e : new Error(String(e)). -/
def wrapThrown : Thrown → JsError
  | .err e => e
  | .nonError s => ⟨s⟩

/-- Behaviour of one subscriber callback when invoked. -/
inductive SubBehavior where
  | ok : SubBehavior
  | throws : Thrown → SubBehavior
deriving DecidableEq

/-- The mutable record behind a live query: the result snapshot fields
(data, error, loading) and the table-dependency set (insertion-ordered,
duplicate-free, as a JS Set). -/
structure LQState where
  data : Option Val
  error : Option JsError
  loading : Bool
  tableDeps : List String

/-- State of a freshly created live query (src/live-query.ts lines 93-96):
data undefined, error undefined, loading true, no dependencies yet. -/
def initialLQState : LQState := { data := none, error := none, loading := true, tableDeps := [] }

/-- Outcome of awaiting the builder during one refetch: either it resolves
(possibly to undefined) or it throws.  Both carry the tables contributed to
the dependency collector while the builder ran. -/
inductive BuilderOutcome where
  | ok : Option Val → List String → BuilderOutcome
  | fail : Thrown → List String → BuilderOutcome

/-- JS Set.add over an insertion-ordered duplicate-free list. -/
def addTables : List String → List String → List String
  | deps, [] => deps
  | deps, t :: ts => addTables (if deps.contains t then deps else deps ++ [t]) ts

/-- The subscriber loop of notifySubscribers (src/live-query.ts lines 52-59)
with the snapshot data fixed for the round.  Returns the indices of the
subscribers that were invoked, in order, and the exception of the first
subscriber that threw, if any (an exception aborts the loop and propagates). -/
def notifyLoop : Option Val → Nat → List SubBehavior → List Nat × Option Thrown
  | _, _, [] => ([], none)
  | none, i, _ :: rest => notifyLoop none (i + 1) rest
  | some v, i, .ok :: rest =>
    let r := notifyLoop (some v) (i + 1) rest
    (i :: r.1, r.2)
  | some _, i, .throws t :: _ => ([i], some t)

/-- notifySubscribers: iterate the subscriber set in registration order,
invoking each with the current data when it is defined. -/
def notifySubscribers (d : Option Val) (subs : List SubBehavior) : List Nat × Option Thrown :=
  notifyLoop d 0 subs

/-- Result of one refetch: the final record state, which subscriber indices
were invoked, and the data payload the notification round published (none
when no round ran or the new data was undefined). -/
structure RefetchResult where
  state : LQState
  called : List Nat
  emitted : Option Val

/-- One execution of refetch (src/live-query.ts lines 61-86), given the
builder outcome and the current subscribers.  Faithful control flow:
set loading; on the first run the collector is installed so the touched
tables land in tableDeps; on success compare with deepEqual, and when
different assign data and notify (a subscriber exception jumps to the catch
clause, so the error-clearing line is skipped and the exception is stored);
on builder failure store the wrapped error and leave data; finally clear
loading. -/
def refetch (s : LQState) (o : BuilderOutcome) (subs : List SubBehavior) : RefetchResult :=
  let isFirstRun := s.tableDeps.length == 0
  match o with
  | .ok v touched =>
    let deps := if isFirstRun then addTables s.tableDeps touched else s.tableDeps
    if deepEqualOpt s.data v then
      { state := { data := s.data, error := none, loading := false, tableDeps := deps },
        called := [], emitted := none }
    else
      let r := notifySubscribers v subs
      match r.2 with
      | none =>
        { state := { data := v, error := none, loading := false, tableDeps := deps },
          called := r.1, emitted := v }
      | some t =>
        { state := { data := v, error := some (wrapThrown t), loading := false, tableDeps := deps },
          called := r.1, emitted := v }
  | .fail t touched =>
    let deps := if isFirstRun then addTables s.tableDeps touched else s.tableDeps
    { state := { data := s.data, error := some (wrapThrown t), loading := false, tableDeps := deps },
      called := [], emitted := none }

/-- Run a live query through a sequence of refetches, collecting the data
values published to the subscribers (the notification sequence a throw-free
subscriber receives). -/
def runLQ (s : LQState) (subs : List SubBehavior) : List BuilderOutcome → LQState × List Val
  | [] => (s, [])
  | o :: os =>
    let r := refetch s o subs
    let rest := runLQ r.state subs os
    (rest.1, (match r.emitted with | some x => [x] | none => []) ++ rest.2)

/-- Index and exception of the first subscriber in the list that throws. -/
def firstThrow : List SubBehavior → Option (Nat × Thrown)
  | [] => none
  | .ok :: rest => (firstThrow rest).map (fun p => (p.1 + 1, p.2))
  | .throws t :: _ => some (0, t)

/-- ASCII model of String.prototype.toLowerCase. -/
def lowerStr (s : String) : String := ⟨s.data.map Char.toLower⟩

/-- The change-router callback onTablesChanged (src/db.ts lines 38-53).
The registry is the list of live queries, each with its id and dependency
set.  The callback lowercases the changed table name and, for every query
whose tableDeps intersect it, invokes query.refetch() immediately; the
returned list holds the ids of the queries whose refetch was started by
this callback, in registry order.  Neither the callback nor the live-query
record keeps any in-flight or pending flag, so the dispatch is the same
whether or not a refetch of the query is already running. -/
def onTablesChanged (queries : List (Nat × List String)) (tableName : String) : List Nat :=
  (queries.filter (fun q => q.2.any (fun dep => dep == lowerStr tableName))).map (fun q => q.1)

/-- A burst of table-change callbacks processed in arrival order: each event
dispatches its refetch calls on the spot. -/
def processEvents (queries : List (Nat × List String)) (events : List String) : List (List Nat) :=
  events.map (onTablesChanged queries)

/-- A prepared statement handle (CRSQLitePreparedQuery, src/session.ts).
oneTime is true when no finalization registry was passed
(prepareOneTimeQuery); tx is the transaction context bound at construction
(null outside transactions). -/
structure PreparedQuery where
  oneTime : Bool
  tx : Option Nat

/-- Outcome of the engine executing a prepared statement. -/
inductive EngineOutcome where
  | ok : EngineOutcome
  | fail : JsError → EngineOutcome
deriving DecidableEq

/-- Observable effects of one execution of a prepared-statement method:
which tx argument the engine statement call received, the finalize(tx)
calls performed, and the error propagated to the caller, if any. -/
structure ExecTrace where
  txUsed : Option Nat
  finalizeCalls : List (Option Nat)
  threw : Option JsError
deriving DecidableEq

/-- CRSQLitePreparedQuery.run (src/session.ts lines 161-169):
stmt.run(this.tx, ...), then finalize only when oneTime and only after a
successful await (there is no try/finally, so a throwing engine call skips
the finalize). -/
def PreparedQuery.run (q : PreparedQuery) (engine : EngineOutcome) : ExecTrace :=
  match engine with
  | .ok => { txUsed := q.tx, finalizeCalls := if q.oneTime then [q.tx] else [], threw := none }
  | .fail e => { txUsed := q.tx, finalizeCalls := [], threw := some e }

/-- CRSQLitePreparedQuery.all (src/session.ts lines 174-184):
stmt.all(this.tx, ...) with the same finalize placement as run. -/
def PreparedQuery.all (q : PreparedQuery) (engine : EngineOutcome) : ExecTrace :=
  match engine with
  | .ok => { txUsed := q.tx, finalizeCalls := if q.oneTime then [q.tx] else [], threw := none }
  | .fail e => { txUsed := q.tx, finalizeCalls := [], threw := some e }

/-- CRSQLitePreparedQuery.get (src/session.ts lines 189-202):
stmt.get(this.tx, ...) with the same finalize placement as run. -/
def PreparedQuery.get (q : PreparedQuery) (engine : EngineOutcome) : ExecTrace :=
  match engine with
  | .ok => { txUsed := q.tx, finalizeCalls := if q.oneTime then [q.tx] else [], threw := none }
  | .fail e => { txUsed := q.tx, finalizeCalls := [], threw := some e }

/-- CRSQLitePreparedQuery.values (src/session.ts lines 207-217):
the engine call is stmt.all(null, ...params) - the bound transaction
context is not passed - while the finalize on the oneTime path still
receives this.tx. -/
def PreparedQuery.values (q : PreparedQuery) (engine : EngineOutcome) : ExecTrace :=
  match engine with
  | .ok => { txUsed := none, finalizeCalls := if q.oneTime then [q.tx] else [], threw := none }
  | .fail e => { txUsed := none, finalizeCalls := [], threw := some e }

/-- The FinalizationRegistry cleanup (src/session.ts lines 42-45): when a
registered statement wrapper is collected, the held (stmt, tx) triggers a
single stmt.finalize(tx).  The registry fires at most once per registered
target, modelled as the one-element list of finalize calls. -/
def registryCleanup (heldTx : Option Nat) : List (Option Nat) := [heldTx]

/-- A migration as given to migrate (drizzle MigrationMeta): its SQL
statements, its folderMillis ordering key, and its hash. -/
structure MigrationMeta where
  sql : List String
  folderMillis : Int
  hash : String

/-- One row of the migrations bookkeeping table. -/
structure MigRow where
  id : String
  hash : String
  created_at : Int

/-- The row returned by SELECT id, hash, created_at FROM migrations ORDER BY
created_at DESC LIMIT 1 (src/migrator.ts lines 37-39): a row carrying the
maximal created_at, or none when the table is empty. -/
def lastDbMigration : List MigRow → Option MigRow
  | [] => none
  | r :: rest =>
    match lastDbMigration rest with
    | none => some r
    | some m => if m.created_at ≤ r.created_at then some r else some m

/-- The per-migration guard of the loop in migrate (src/migrator.ts line 44):
apply when there is no stored migration yet, or when the stored most-recent
created_at is strictly less than the migration folderMillis. -/
def migCond : Option MigRow → MigrationMeta → Bool
  | none, _ => true
  | some lm, m => decide (lm.created_at < m.folderMillis)

/-- The migration loop of migrate: lastDbMigration is computed once before
the loop and not refreshed; each applied migration appends one
(uuid, hash, folderMillis) row to the bookkeeping table.  Returns the table
after the loop and the list of applied migrations in order; uuids supplies
the crypto.randomUUID() stream. -/
def migrateLoop (last : Option MigRow) (uuids : Nat → String) :
    Nat → List MigRow → List MigrationMeta → List MigRow × List MigrationMeta
  | _, rows, [] => (rows, [])
  | i, rows, m :: ms =>
    if migCond last m then
      let r := migrateLoop last uuids (i + 1) (rows ++ [⟨uuids i, m.hash, m.folderMillis⟩]) ms
      (r.1, m :: r.2)
    else
      migrateLoop last uuids i rows ms

/-- migrate (src/migrator.ts lines 12-53) acting on the bookkeeping table:
no-op when the migration list is empty; otherwise create the table if
absent (no row change), read the most recent row once, and run the loop. -/
def migrate (rows : List MigRow) (migrations : List MigrationMeta) (uuids : Nat → String) :
    List MigRow × List MigrationMeta :=
  if migrations.isEmpty then (rows, [])
  else migrateLoop (lastDbMigration rows) uuids 0 rows migrations

mutual
/-- JS values flowing through jsonStringifyWithBigInt / jsonParseWithBigInt
(src/types.ts lines 132-147): JSON data plus bigint.  Numbers are modelled as
integers (the adapter's changeset payloads; fraction and exponent forms are
outside this model). -/
inductive JsVal where
  | jnull : JsVal
  | jbool : Bool → JsVal
  | jnum : Int → JsVal
  | jstr : String → JsVal
  | jbig : Int → JsVal
  | jarr : JsList → JsVal
  | jobj : JsFields → JsVal
/-- A JS array of such values. -/
inductive JsList where
  | nil : JsList
  | cons : JsVal → JsList → JsList
/-- Properties of a plain JS object, in insertion order. -/
inductive JsFields where
  | fnil : JsFields
  | fcons : String → JsVal → JsFields → JsFields
end

/-- Build a JsList from a Lean list (construction convenience only). -/
def JsList.ofList : List JsVal → JsList
  | [] => .nil
  | v :: vs => .cons v (JsList.ofList vs)

/-- Array.length over the changeset element arrays. -/
def JsList.length : JsList → Nat
  | .nil => 0
  | .cons _ vs => vs.length + 1

/-- ASCII decimal digit for n < 10. -/
def digitChar (n : Nat) : Char := Char.ofNat (48 + n)

/-- Numeric value of an ASCII decimal digit. -/
def digitVal (c : Char) : Nat := c.toNat - 48

/-- Is the character an ASCII decimal digit. -/
def isDigitChar (c : Char) : Bool := decide (48 ≤ c.toNat) && decide (c.toNat ≤ 57)

/-- Does the character list start with a decimal digit. -/
def digitStartB : List Char → Bool
  | c :: _ => isDigitChar c
  | [] => false

/-- The JSON whitespace characters. -/
def isWsChar (c : Char) : Bool := c == ' ' || c == '\t' || c == '\n' || c == '\r'

/-- Lowercase hexadecimal digit for n < 16 (as JSON.stringify emits in
control-character escapes). -/
def hexDigit (n : Nat) : Char := if n < 10 then Char.ofNat (48 + n) else Char.ofNat (87 + n)

/-- Value of a hexadecimal digit character, accepting 0-9, a-f and A-F. -/
def hexVal (c : Char) : Option Nat :=
  if 48 ≤ c.toNat ∧ c.toNat ≤ 57 then some (c.toNat - 48)
  else if 97 ≤ c.toNat ∧ c.toNat ≤ 102 then some (c.toNat - 87)
  else if 65 ≤ c.toNat ∧ c.toNat ≤ 70 then some (c.toNat - 55)
  else none

/-- Decimal digits of a Nat, most significant first, via an explicit
recursion-depth argument (n + 1 always suffices: the argument shrinks by a
factor of ten each step). -/
def natDigitsF : Nat → Nat → List Char → List Char
  | 0, _, acc => acc
  | fuel + 1, n, acc =>
    if n < 10 then digitChar n :: acc
    else natDigitsF fuel (n / 10) (digitChar (n % 10) :: acc)

/-- Decimal digits of a Nat ("0" for zero, no leading zeros otherwise). -/
def natDigits (n : Nat) : List Char := natDigitsF (n + 1) n []

/-- Decimal rendering of an Int, as JS String() renders integers and
bigints. -/
def intDecimal (n : Int) : List Char :=
  if n < 0 then '-' :: natDigits n.natAbs else natDigits n.toNat

/-- JSON.stringify escaping of one string character: quote, backslash and
the named control escapes, \u00xx for other control characters, everything
else literal. -/
def escapeChar (c : Char) : List Char :=
  if c = '"' then ['\\', '"']
  else if c = '\\' then ['\\', '\\']
  else if c = '\n' then ['\\', 'n']
  else if c = '\r' then ['\\', 'r']
  else if c = '\t' then ['\\', 't']
  else if c = '\x08' then ['\\', 'b']
  else if c = '\x0c' then ['\\', 'f']
  else if c.toNat < 32 then ['\\', 'u', '0', '0', hexDigit (c.toNat / 16), hexDigit (c.toNat % 16)]
  else [c]

/-- JSON.stringify escaping of a whole string body. -/
def escapeChars : List Char → List Char
  | [] => []
  | c :: cs => escapeChar c ++ escapeChars cs

mutual
/-- JSON.stringify with the bigint replacer of jsonStringifyWithBigInt
(src/types.ts lines 133-137): a bigint value is replaced by the string
BIGINT::<decimal> before serialization; strings are quoted and escaped,
arrays and objects are emitted without whitespace, object keys in insertion
order. -/
def emitJ : JsVal → List Char
  | .jnull => ['n', 'u', 'l', 'l']
  | .jbool true => ['t', 'r', 'u', 'e']
  | .jbool false => ['f', 'a', 'l', 's', 'e']
  | .jnum n => intDecimal n
  | .jstr s => '"' :: (escapeChars s.data ++ ['"'])
  | .jbig n => '"' :: (escapeChars ("BIGINT::".data ++ intDecimal n) ++ ['"'])
  | .jarr l => '[' :: (emitElems l ++ [']'])
  | .jobj fs => '{' :: (emitMembers fs ++ ['}'])
/-- Comma-separated array elements. -/
def emitElems : JsList → List Char
  | .nil => []
  | .cons v .nil => emitJ v
  | .cons v vs => emitJ v ++ ',' :: emitElems vs
/-- Comma-separated object members, each a quoted key, a colon and the
value. -/
def emitMembers : JsFields → List Char
  | .fnil => []
  | .fcons k v .fnil => '"' :: (escapeChars k.data ++ '"' :: ':' :: emitJ v)
  | .fcons k v fs =>
    ('"' :: (escapeChars k.data ++ '"' :: ':' :: emitJ v)) ++ ',' :: emitMembers fs
end

/-- jsonStringifyWithBigInt (src/types.ts lines 133-137). -/
def jsonStringifyWithBigInt (v : JsVal) : String := ⟨emitJ v⟩

/-- Skip JSON whitespace. -/
def skipWs : List Char → List Char
  | [] => []
  | c :: cs => if isWsChar c then skipWs cs else c :: cs

/-- Match an expected literal character sequence, returning the remainder. -/
def matchChars : List Char → List Char → Option (List Char)
  | [], cs => some cs
  | _ :: _, [] => none
  | p :: ps, c :: cs => if c = p then matchChars ps cs else none

/-- JSON string-body scanner, entered after the opening quote: returns the
decoded characters and the input after the closing quote.  Handles the named
escapes, \uXXXX (surrogate code units are out of scope of the model) and
rejects raw control characters, as JSON.parse does. -/
def parseStringBody : List Char → Option (List Char × List Char)
  | [] => none
  | '"' :: rest => some ([], rest)
  | '\\' :: 'u' :: h1 :: h2 :: h3 :: h4 :: rest =>
    (match hexVal h1, hexVal h2, hexVal h3, hexVal h4 with
     | some a, some b, some c, some d =>
       let code := ((a * 16 + b) * 16 + c) * 16 + d
       if Nat.isValidChar code then
         (parseStringBody rest).map (fun p => (Char.ofNat code :: p.1, p.2))
       else none
     | _, _, _, _ => none)
  | '\\' :: e :: rest =>
    (match
      (if e = '"' then some '"'
       else if e = '\\' then some '\\'
       else if e = '/' then some '/'
       else if e = 'b' then some '\x08'
       else if e = 'f' then some '\x0c'
       else if e = 'n' then some '\n'
       else if e = 'r' then some '\r'
       else if e = 't' then some '\t'
       else none) with
     | some c => (parseStringBody rest).map (fun p => (c :: p.1, p.2))
     | none => none)
  | c :: rest =>
    if c.toNat < 32 then none
    else (parseStringBody rest).map (fun p => (c :: p.1, p.2))

/-- Digit muncher for JSON integers: consume the maximal digit run,
accumulating the value. -/
def parseDigits : List Char → Nat → Nat × List Char
  | [], acc => (acc, [])
  | c :: cs, acc =>
    if isDigitChar c then parseDigits cs (10 * acc + digitVal c) else (acc, c :: cs)

/-- Unsigned JSON integer: a lone 0, or a nonzero digit followed by digits
(leading zeros rejected as in JSON). -/
def parseNumBody : List Char → Option (Nat × List Char)
  | [] => none
  | c :: cs =>
    if c = '0' then (if digitStartB cs then none else some (0, cs))
    else if isDigitChar c then some (parseDigits cs (digitVal c))
    else none

/-- Signed JSON integer. -/
def parseNumber (cs : List Char) : Option (Int × List Char) :=
  match cs with
  | [] => none
  | c :: cs2 =>
    if c = '-' then (parseNumBody cs2).map (fun p => (-(p.1 : Int), p.2))
    else (parseNumBody (c :: cs2)).map (fun p => ((p.1 : Int), p.2))

mutual
/-- Recursive-descent model of JSON.parse (value grammar), with an explicit
recursion-depth argument: every recursive call strictly deepens into the
input, so input length + 1 always suffices.  Numbers are restricted to
integer numerals (see JsVal). -/
def parseJ : Nat → List Char → Option (JsVal × List Char)
  | 0, _ => none
  | fuel + 1, cs0 =>
    match skipWs cs0 with
    | [] => none
    | c :: cs =>
      if c = 'n' then (matchChars ['u', 'l', 'l'] cs).map (fun r => (.jnull, r))
      else if c = 't' then (matchChars ['r', 'u', 'e'] cs).map (fun r => (.jbool true, r))
      else if c = 'f' then (matchChars ['a', 'l', 's', 'e'] cs).map (fun r => (.jbool false, r))
      else if c = '"' then (parseStringBody cs).map (fun p => (.jstr ⟨p.1⟩, p.2))
      else if c = '[' then
        (match skipWs cs with
         | [] => none
         | d :: ds =>
           if d = ']' then some (.jarr .nil, ds)
           else (parseJElems fuel (d :: ds)).map (fun p => (.jarr p.1, p.2)))
      else if c = '{' then
        (match skipWs cs with
         | [] => none
         | d :: ds =>
           if d = '}' then some (.jobj .fnil, ds)
           else (parseJMembers fuel (d :: ds)).map (fun p => (.jobj p.1, p.2)))
      else (parseNumber (c :: cs)).map (fun p => (.jnum p.1, p.2))
/-- One or more comma-separated array elements followed by the closing
bracket. -/
def parseJElems : Nat → List Char → Option (JsList × List Char)
  | 0, _ => none
  | fuel + 1, cs =>
    match parseJ fuel cs with
    | none => none
    | some (v, rest) =>
      match skipWs rest with
      | ',' :: rest2 => (parseJElems fuel rest2).map (fun p => (.cons v p.1, p.2))
      | ']' :: rest2 => some (.cons v .nil, rest2)
      | _ => none
/-- One or more comma-separated object members followed by the closing
brace. -/
def parseJMembers : Nat → List Char → Option (JsFields × List Char)
  | 0, _ => none
  | fuel + 1, cs =>
    match skipWs cs with
    | '"' :: rest =>
      (match parseStringBody rest with
       | none => none
       | some (k, rest2) =>
         match skipWs rest2 with
         | ':' :: rest3 =>
           (match parseJ fuel rest3 with
            | none => none
            | some (v, rest4) =>
              match skipWs rest4 with
              | ',' :: rest5 => (parseJMembers fuel rest5).map (fun p => (.fcons ⟨k⟩ v p.1, p.2))
              | '}' :: rest5 => some (.fcons ⟨k⟩ v .fnil, rest5)
              | _ => none)
         | _ => none)
    | _ => none
end

/-- JSON.parse on a whole document: one value, then only trailing
whitespace.  none models a SyntaxError. -/
def jsonParse (s : String) : Option JsVal :=
  match parseJ (s.data.length + 1) s.data with
  | some (v, rest) => if skipWs rest = [] then some v else none
  | none => none

/-- Does the character list start with the eight characters BIGINT:: (what
value.startsWith(\x22BIGINT::\x22) tests in the reviver). -/
def hasBigintTag : List Char → Bool
  | 'B' :: 'I' :: 'G' :: 'I' :: 'N' :: 'T' :: ':' :: ':' :: _ => true
  | _ => false

/-- Are all characters decimal digits. -/
def allDigits (cs : List Char) : Bool := cs.all isDigitChar

/-- Value of a run of decimal digits, most significant first. -/
def charsToNat (cs : List Char) : Nat := cs.foldl (fun a c => 10 * a + digitVal c) 0

/-- Model of the JS BigInt(string) builtin on the string shapes this adapter
produces and consumes: empty means 0, an optional sign followed by decimal
digits is the signed value, anything else throws (none).  Whitespace
trimming and radix-prefix forms are outside the model. -/
def jsBigIntChars (cs : List Char) : Option Int :=
  match cs with
  | [] => some 0
  | c :: ds =>
    if c = '-' then (if allDigits ds && !ds.isEmpty then some (-(charsToNat ds : Int)) else none)
    else if c = '+' then (if allDigits ds && !ds.isEmpty then some ((charsToNat ds : Int)) else none)
    else if allDigits (c :: ds) then some ((charsToNat (c :: ds) : Int)) else none

mutual
/-- What the pure JSON parse yields for a value that may hold bigints: each
bigint appears as its BIGINT::<decimal> string (the image of the stringify
replacer before the reviver runs). -/
def debig : JsVal → JsVal
  | .jbig n => .jstr ⟨"BIGINT::".data ++ intDecimal n⟩
  | .jarr l => .jarr (debigList l)
  | .jobj fs => .jobj (debigFields fs)
  | v => v
/-- debig over array elements. -/
def debigList : JsList → JsList
  | .nil => .nil
  | .cons v vs => .cons (debig v) (debigList vs)
/-- debig over object member values. -/
def debigFields : JsFields → JsFields
  | .fnil => .fnil
  | .fcons k v fs => .fcons k (debig v) (debigFields fs)
end

mutual
/-- The reviver of jsonParseWithBigInt (src/types.ts lines 140-147), applied
bottom-up as JSON.parse applies revivers: every string value that starts
with BIGINT:: is converted with BigInt(value.substring(8)), which throws on
a malformed remainder; object keys are not revived.  The error is the
message of the propagated exception. -/
def revive : JsVal → Except String JsVal
  | .jstr s =>
    if hasBigintTag s.data then
      match jsBigIntChars (s.data.drop 8) with
      | some n => .ok (.jbig n)
      | none => .error "Cannot convert the string to a BigInt"
    else .ok (.jstr s)
  | .jarr l => (reviveList l).map .jarr
  | .jobj fs => (reviveFields fs).map .jobj
  | v => .ok v
/-- Reviver over array elements. -/
def reviveList : JsList → Except String JsList
  | .nil => .ok .nil
  | .cons v vs => do
    let w ← revive v
    let ws ← reviveList vs
    .ok (.cons w ws)
/-- Reviver over object member values. -/
def reviveFields : JsFields → Except String JsFields
  | .fnil => .ok .fnil
  | .fcons k v fs => do
    let w ← revive v
    let ws ← reviveFields fs
    .ok (.fcons k w ws)
end

/-- The errors applyChangeset can raise: an exception escaping
jsonParseWithBigInt (a JSON SyntaxError or a BigInt conversion error), or
the Error thrown by the validation. -/
inductive ApplyError where
  | parseError : ApplyError
  | invalid : String → ApplyError
deriving DecidableEq

/-- jsonParseWithBigInt (src/types.ts lines 140-147): JSON.parse with the
bigint reviver; any exception from the parse or the reviver propagates. -/
def jsonParseWithBigInt (s : String) : Except ApplyError JsVal :=
  match jsonParse s with
  | none => .error .parseError
  | some v =>
    match revive v with
    | .ok w => .ok w
    | .error _ => .error .parseError

/-- The every-element check of the applyChangeset validation. -/
def isTupleList : JsList → Bool
  | .nil => true
  | .cons (.jarr t) rest => t.length == 8 && isTupleList rest
  | .cons _ _ => false

/-- The validation of applyChangeset (src/sync.ts lines 39-43):
Array.isArray(changes) and every element an array of length exactly 8. -/
def isChangesetShape : JsVal → Bool
  | .jarr l => isTupleList l
  | _ => false

/-- The message of the Error applyChangeset throws on a malformed
changeset. -/
def invalidChangesetMsg : String :=
  "Invalid changeset format. Expected a JSON array of change tuples."

/-- applyChangeset (src/sync.ts lines 34-51): parse with the bigint reviver
(its exceptions propagate unchanged), validate the shape, and only then call
engine.applyChanges with the parsed tuples; ok carries the tuples handed to
the engine, so an error return means the engine was never called and the
database is untouched. -/
def applyChangeset (changeset : String) : Except ApplyError JsVal :=
  match jsonParseWithBigInt changeset with
  | .error e => .error e
  | .ok changes =>
    if isChangesetShape changes then .ok changes
    else .error (.invalid invalidChangesetMsg)

/-- One CRDT change tuple as the spec describes the wire format: positions
2, 3, 4 (colVersion, dbVersion, siteId) are bigints, the rest are JSON-shaped
values. -/
structure ChangeTuple where
  table : JsVal
  pk : JsVal
  colVersion : Int
  dbVersion : Int
  siteId : Int
  cl : JsVal
  seq : JsVal
  value : JsVal

/-- The JS value of one change tuple (an 8-element array). -/
def ChangeTuple.toJsVal (t : ChangeTuple) : JsVal :=
  .jarr (.cons t.table (.cons t.pk (.cons (.jbig t.colVersion) (.cons (.jbig t.dbVersion)
    (.cons (.jbig t.siteId) (.cons t.cl (.cons t.seq (.cons t.value .nil))))))))

/-- The JS value of a changeset (an array of tuples). -/
def changesetToJsVal (ts : List ChangeTuple) : JsVal :=
  .jarr (JsList.ofList (ts.map ChangeTuple.toJsVal))

/-- getChangeset (src/sync.ts lines 23-29) applied to the tuples the engine
returned from pullChanges: serialize them with jsonStringifyWithBigInt. -/
def getChangeset (changes : List ChangeTuple) : String :=
  jsonStringifyWithBigInt (changesetToJsVal changes)

mutual
/-- No string value anywhere in the tree starts with BIGINT:: (the
round-trip side condition: such strings collide with the bigint encoding;
object keys are exempt because the reviver never touches keys). -/
def noBigintStrings : JsVal → Bool
  | .jstr s => !hasBigintTag s.data
  | .jarr l => noBigintStringsList l
  | .jobj fs => noBigintStringsFields fs
  | _ => true
/-- The side condition over array elements. -/
def noBigintStringsList : JsList → Bool
  | .nil => true
  | .cons v vs => noBigintStrings v && noBigintStringsList vs
/-- The side condition over object member values. -/
def noBigintStringsFields : JsFields → Bool
  | .fnil => true
  | .fcons _ v fs => noBigintStrings v && noBigintStringsFields fs
end

example : deepEqual (.vNum 1) (.vNum 1) = true := by decide
example : deepEqual (.vArr (.ofList [.vNum 1, .vNaN])) (.vArr (.ofList [.vNum 1, .vNaN])) = true := by decide
example :
    deepEqual (.vObj (.ofList [("a", .vNum 1), ("b", .vNull)]))
      (.vObj (.ofList [("b", .vNull), ("a", .vNum 1)])) = true := by decide
example : deepEqual (.vObj (.ofList [("a", .vNum 1)])) (.vObj (.ofList [("a", .vNum 2)])) = false := by decide
example : deepEqual (.vObj (.ofList [("", .vNum 1)])) (.vObj (.ofList [("", .vNum 2)])) = true := by decide
example :
    deepEqual (.vObj (.ofList [("", .vNum 1), ("a", .vNum 2)]))
      (.vObj (.ofList [("", .vNum 9), ("a", .vNum 2)])) = true := by decide
example :
    deepEqual (.vObj (.ofList [("", .vNum 1), ("a", .vNum 2)]))
      (.vObj (.ofList [("", .vNum 1), ("a", .vNum 3)])) = false := by decide
example : deepEqualOpt none none = true := by decide
example : deepEqualOpt (some .vNull) none = false := by decide
example :
    (runLQ initialLQState [.ok]
      [.ok (some (.vNum 1)) ["users"], .ok none [], .ok (some (.vNum 1)) []]).2
      = [Val.vNum 1, Val.vNum 1] := by rfl

/-! Helper lemmas about the live-query model. -/

theorem notifyLoop_undef (subs : List SubBehavior) : ∀ i, notifyLoop none i subs = ([], none) := by
  induction subs with
  | nil => intro i; rfl
  | cons b rest ih => intro i; simpa [notifyLoop] using ih (i + 1)

theorem notifyLoop_no_throw (v : Val) (subs : List SubBehavior) :
    firstThrow subs = none → ∀ i, notifyLoop (some v) i subs = (List.range' i subs.length, none) := by
  induction subs with
  | nil => intro _ i; rfl
  | cons b rest ih =>
    cases b with
    | ok =>
      intro h i
      have hr : firstThrow rest = none := by
        simpa [firstThrow, Option.map_eq_none'] using h
      simp [notifyLoop, ih hr (i + 1), List.range']
    | throws t => intro h; simp [firstThrow] at h

theorem notifyLoop_throw (v : Val) (subs : List SubBehavior) :
    ∀ j t, firstThrow subs = some (j, t) →
      ∀ i, notifyLoop (some v) i subs = (List.range' i (j + 1), some t) := by
  induction subs with
  | nil => intro j t h; simp [firstThrow] at h
  | cons b rest ih =>
    cases b with
    | ok =>
      intro j t h i
      rcases hr : firstThrow rest with _ | p
      · rw [firstThrow, hr] at h; simp at h
      · obtain ⟨jr, tr⟩ := p
        rw [firstThrow, hr] at h
        simp only [Option.map_some', Option.some.injEq, Prod.mk.injEq] at h
        obtain ⟨hj, ht⟩ := h
        subst hj; subst ht
        simp [notifyLoop, ih jr tr hr (i + 1), List.range']
    | throws tb =>
      intro j t h i
      rw [firstThrow] at h
      simp only [Option.some.injEq, Prod.mk.injEq] at h
      obtain ⟨hj, ht⟩ := h
      subst hj; subst ht
      simp [notifyLoop, List.range']

theorem refetch_fail_eq (s : LQState) (t : Thrown) (touched : List String) (subs : List SubBehavior) :
    refetch s (.fail t touched) subs =
      { state := { data := s.data, error := some (wrapThrown t), loading := false,
                   tableDeps := if s.tableDeps.length == 0 then addTables s.tableDeps touched else s.tableDeps },
        called := [], emitted := none } := rfl

theorem refetch_ok_eq (s : LQState) (v : Option Val) (touched : List String) (subs : List SubBehavior) :
    refetch s (.ok v touched) subs =
      (if deepEqualOpt s.data v then
        { state := { data := s.data, error := none, loading := false,
                     tableDeps := if s.tableDeps.length == 0 then addTables s.tableDeps touched else s.tableDeps },
          called := [], emitted := none }
      else
        match (notifySubscribers v subs).2 with
        | none =>
          { state := { data := v, error := none, loading := false,
                       tableDeps := if s.tableDeps.length == 0 then addTables s.tableDeps touched else s.tableDeps },
            called := (notifySubscribers v subs).1, emitted := v }
        | some t =>
          { state := { data := v, error := some (wrapThrown t), loading := false,
                       tableDeps := if s.tableDeps.length == 0 then addTables s.tableDeps touched else s.tableDeps },
            called := (notifySubscribers v subs).1, emitted := v }) := rfl

theorem refetch_emitted_some {s : LQState} {o : BuilderOutcome} {subs : List SubBehavior} {x : Val}
    (h : (refetch s o subs).emitted = some x) :
    (refetch s o subs).state.data = some x ∧ deepEqualOpt s.data (some x) = false := by
  cases o with
  | fail t touched => rw [refetch_fail_eq] at h; simp at h
  | ok v touched =>
    rw [refetch_ok_eq] at h ⊢
    by_cases hd : deepEqualOpt s.data v = true
    · simp [hd] at h
    · rw [if_neg hd] at h ⊢
      cases hn : (notifySubscribers v subs).2 with
      | none =>
        rw [hn] at h
        simp at h
        subst h
        exact ⟨by simp, by simpa using hd⟩
      | some t =>
        rw [hn] at h
        simp at h
        subst h
        exact ⟨by simp, by simpa using hd⟩

theorem refetch_emitted_none {s : LQState} {o : BuilderOutcome} {subs : List SubBehavior}
    (hno : ∀ touched, o ≠ .ok none touched)
    (h : (refetch s o subs).emitted = none) : (refetch s o subs).state.data = s.data := by
  cases o with
  | fail t touched => rw [refetch_fail_eq]
  | ok v touched =>
    rw [refetch_ok_eq] at h ⊢
    by_cases hd : deepEqualOpt s.data v = true
    · simp [hd]
    · rw [if_neg hd] at h ⊢
      cases hn : (notifySubscribers v subs).2 with
      | none =>
        rw [hn] at h
        simp at h
        subst h
        exact absurd rfl (hno touched)
      | some t =>
        rw [hn] at h
        simp at h
        subst h
        exact absurd rfl (hno touched)

theorem runLQ_cons (s : LQState) (subs : List SubBehavior) (o : BuilderOutcome) (os : List BuilderOutcome) :
    runLQ s subs (o :: os) =
      ((runLQ (refetch s o subs).state subs os).1,
       (match (refetch s o subs).emitted with | some x => [x] | none => [])
         ++ (runLQ (refetch s o subs).state subs os).2) := rfl

theorem runLQ_head_ne (outs : List BuilderOutcome) :
    ∀ (s : LQState) (subs : List SubBehavior) (x : Val),
      (∀ o ∈ outs, ∀ touched, o ≠ .ok none touched) → s.data = some x →
      ∀ y ∈ ((runLQ s subs outs).2).head?, deepEqual x y = false := by
  induction outs with
  | nil => intro s subs x _ _ y hy; simp [runLQ] at hy
  | cons o os ih =>
    intro s subs x hno hx y hy
    rw [runLQ_cons] at hy
    cases he : (refetch s o subs).emitted with
    | none =>
      rw [he] at hy
      simp only [List.nil_append] at hy
      have hdata : (refetch s o subs).state.data = some x := by
        rw [refetch_emitted_none (hno o (List.mem_cons_self o os)) he, hx]
      exact ih (refetch s o subs).state subs x (fun q hq => hno q (List.mem_cons_of_mem o hq)) hdata y hy
    | some e =>
      rw [he] at hy
      simp only [List.cons_append, List.head?_cons, Option.mem_def, Option.some.injEq] at hy
      cases hy
      have hne := (refetch_emitted_some he).2
      rw [hx] at hne
      simpa [deepEqualOpt] using hne

theorem runLQ_chain (outs : List BuilderOutcome) :
    ∀ (s : LQState) (subs : List SubBehavior),
      (∀ o ∈ outs, ∀ touched, o ≠ .ok none touched) →
      List.Chain' (fun a b => deepEqual a b = false) ((runLQ s subs outs).2) := by
  induction outs with
  | nil => intro s subs _; simp [runLQ]
  | cons o os ih =>
    intro s subs hno
    rw [runLQ_cons]
    cases he : (refetch s o subs).emitted with
    | none => simpa using ih (refetch s o subs).state subs (fun q hq => hno q (List.mem_cons_of_mem o hq))
    | some x =>
      simp only [List.cons_append, List.nil_append]
      rw [List.chain'_cons']
      refine ⟨?_, ih (refetch s o subs).state subs (fun q hq => hno q (List.mem_cons_of_mem o hq))⟩
      intro y hy
      exact runLQ_head_ne os (refetch s o subs).state subs x
        (fun q hq => hno q (List.mem_cons_of_mem o hq)) (refetch_emitted_some he).1 y hy

theorem notify_called_ne (x : Val) (subs : List SubBehavior) (h : subs ≠ []) :
    (notifySubscribers (some x) subs).1 ≠ [] := by
  cases subs with
  | nil => exact absurd rfl h
  | cons b rest => cases b <;> simp [notifySubscribers, notifyLoop]

/-! Claim theorems for the live-query notification protocol. -/

/-- C1 (counterexample): the claim says subscribers are notified if and only
if the new result structurally differs from the previous data, and that no
two consecutive notifications carry structurally equal data.  Both parts
fail when a builder resolves to undefined: the comparison sees a difference
but notifySubscribers skips every callback because data is undefined, and a
later refetch back to the original value renotifies it, so one subscriber
receives the structurally equal sequence [1, 1]. -/
theorem c1_notify_iff_counterexample :
    (deepEqualOpt (some (Val.vNum 1)) none = false)
    ∧ ((refetch { data := some (Val.vNum 1), error := none, loading := false, tableDeps := ["users"] }
          (.ok none []) [.ok]).called = [])
    ∧ ((runLQ initialLQState [.ok]
          [.ok (some (.vNum 1)) ["users"], .ok none [], .ok (some (.vNum 1)) []]).2
        = [Val.vNum 1, Val.vNum 1])
    ∧ (deepEqual (Val.vNum 1) (Val.vNum 1) = true) :=
  ⟨rfl, rfl, rfl, rfl⟩

/-- C1 (amended): on a successful refetch the subscribers are invoked if and
only if the new result structurally differs from the previous data AND the
new result is not undefined; consequently, in any refetch sequence in which
no builder call resolves to undefined, no two consecutive notification
payloads are structurally equal. -/
theorem c1_notify_dedup_amended :
    (∀ (s : LQState) (v : Option Val) (touched : List String) (subs : List SubBehavior),
      subs ≠ [] →
      ((refetch s (.ok v touched) subs).called ≠ [] ↔
        deepEqualOpt s.data v = false ∧ v ≠ none))
    ∧ (∀ (outs : List BuilderOutcome) (subs : List SubBehavior),
      (∀ o ∈ outs, ∀ touched, o ≠ .ok none touched) →
      List.Chain' (fun a b => deepEqual a b = false) ((runLQ initialLQState subs outs).2)) := by
  constructor
  · intro s v touched subs hsubs
    rw [refetch_ok_eq]
    by_cases hd : deepEqualOpt s.data v = true
    · simp [hd]
    · rw [if_neg hd]
      cases v with
      | none =>
        have h2 : (notifySubscribers none subs).2 = none := by
          show (notifyLoop none 0 subs).2 = none
          rw [notifyLoop_undef subs 0]
        rw [h2]
        have h1 : (notifySubscribers none subs).1 = [] := by
          show (notifyLoop none 0 subs).1 = []
          rw [notifyLoop_undef subs 0]
        simp [h1]
      | some x =>
        have hdf : deepEqualOpt s.data (some x) = false := by
          cases hb : deepEqualOpt s.data (some x)
          · rfl
          · exact absurd hb hd
        cases hscr : (notifySubscribers (some x) subs).2 with
        | none => simp [notify_called_ne x subs hsubs, hdf]
        | some t => simp [notify_called_ne x subs hsubs, hdf]
  · intro outs subs h
    exact runLQ_chain outs initialLQState subs h

theorem c1_notify_dedup_amended_witness :
    ((refetch initialLQState (.ok (some (Val.vNum 2)) ["users"]) [.ok]).called ≠ [])
    ∧ List.Chain' (fun a b => deepEqual a b = false)
        ((runLQ initialLQState [.ok] [.ok (some (.vNum 1)) [], .ok (some (.vNum 2)) []]).2) := by
  refine ⟨?_, ?_⟩
  · exact (c1_notify_dedup_amended.1 initialLQState (some (Val.vNum 2)) ["users"] [.ok]
      (by simp)).2 ⟨rfl, by simp⟩
  · refine c1_notify_dedup_amended.2 [.ok (some (.vNum 1)) [], .ok (some (.vNum 2)) []] [.ok] ?_
    intro o ho touched hc
    rcases List.mem_cons.mp ho with h1 | h2
    · subst h1; simp at hc
    · rcases List.mem_cons.mp h2 with h3 | h4
      · subst h3; simp at hc
      · simp at h4

/-- C2: when the builder of a refetch throws, the snapshot error is set to
the thrown value (wrapped into an Error exactly when it is not already
one, so an Error instance is stored as-is), data is left unchanged, and no
subscriber is invoked. -/
theorem c2_refetch_failure :
    ∀ (s : LQState) (t : Thrown) (touched : List String) (subs : List SubBehavior),
      (refetch s (.fail t touched) subs).state.error = some (wrapThrown t)
      ∧ (refetch s (.fail t touched) subs).state.data = s.data
      ∧ (refetch s (.fail t touched) subs).called = []
      ∧ (∀ e, t = .err e → wrapThrown t = e) := by
  intro s t touched subs
  refine ⟨rfl, rfl, rfl, ?_⟩
  intro e he; subst he; rfl

theorem c2_refetch_failure_witness :
    (refetch ⟨some (Val.vNum 1), none, false, ["users"]⟩ (.fail (.err ⟨"boom"⟩) []) [.ok]).state.error
        = some ⟨"boom"⟩
    ∧ (refetch ⟨some (Val.vNum 1), none, false, ["users"]⟩ (.fail (.err ⟨"boom"⟩) []) [.ok]).state.data
        = some (Val.vNum 1)
    ∧ (refetch ⟨some (Val.vNum 1), none, false, ["users"]⟩ (.fail (.err ⟨"boom"⟩) []) [.ok]).called = []
    ∧ wrapThrown (.err ⟨"boom"⟩) = ⟨"boom"⟩ := by
  obtain ⟨h1, h2, h3, h4⟩ := c2_refetch_failure ⟨some (Val.vNum 1), none, false, ["users"]⟩
    (.err ⟨"boom"⟩) [] [.ok]
  exact ⟨h1, h2, h3, h4 ⟨"boom"⟩ rfl⟩

/-- C4 (counterexample): the claim says a subscriber exception does not
prevent the remaining subscribers from being notified.  In the code the
notification loop has no try/catch, so the first throwing subscriber aborts
the loop: with subscribers [throws, ok] only index 0 is invoked, and the
exception lands on the snapshot error instead of being contained. -/
theorem c4_subscriber_exception_counterexample :
    (notifySubscribers (some (Val.vNum 1)) [.throws (.err ⟨"sub boom"⟩), .ok]).1 = [0]
    ∧ (refetch { data := none, error := none, loading := true, tableDeps := [] }
        (.ok (some (Val.vNum 1)) []) [.throws (.err ⟨"sub boom"⟩), .ok]).called = [0]
    ∧ (refetch { data := none, error := none, loading := true, tableDeps := [] }
        (.ok (some (Val.vNum 1)) []) [.throws (.err ⟨"sub boom"⟩), .ok]).state.error
        = some ⟨"sub boom"⟩ :=
  ⟨rfl, rfl, rfl⟩

/-- C4 (amended): subscribers are invoked synchronously in registration
order; when none throws all of them are invoked, and when one throws the
loop stops right after it (indices 0..j), the exception propagates into the
refetch catch clause and is stored, wrapped, as the snapshot error. -/
theorem c4_notify_order_amended :
    ∀ (v : Val) (subs : List SubBehavior) (s : LQState) (touched : List String),
      (firstThrow subs = none →
        notifySubscribers (some v) subs = (List.range' 0 subs.length, none))
      ∧ (∀ j t, firstThrow subs = some (j, t) →
          notifySubscribers (some v) subs = (List.range' 0 (j + 1), some t)
          ∧ (deepEqualOpt s.data (some v) = false →
              (refetch s (.ok (some v) touched) subs).state.error = some (wrapThrown t)
              ∧ (refetch s (.ok (some v) touched) subs).called = List.range' 0 (j + 1))) := by
  intro v subs s touched
  constructor
  · intro h
    exact notifyLoop_no_throw v subs h 0
  · intro j t h
    have hn := notifyLoop_throw v subs j t h 0
    refine ⟨hn, ?_⟩
    intro hd
    rw [refetch_ok_eq, if_neg (by simp [hd])]
    have h2 : (notifySubscribers (some v) subs).2 = some t := by
      show (notifyLoop (some v) 0 subs).2 = some t
      rw [hn]
    rw [h2]
    exact ⟨rfl, congrArg Prod.fst hn⟩

theorem c4_notify_order_amended_witness :
    notifySubscribers (some (Val.vNum 1)) [.ok, .throws (.err ⟨"boom"⟩)] = ([0, 1], some (.err ⟨"boom"⟩))
    ∧ (refetch initialLQState (.ok (some (Val.vNum 1)) []) [.ok, .throws (.err ⟨"boom"⟩)]).state.error
        = some ⟨"boom"⟩ := by
  obtain ⟨h1, h2⟩ := (c4_notify_order_amended (Val.vNum 1) [.ok, .throws (.err ⟨"boom"⟩)]
    initialLQState []).2 1 (.err ⟨"boom"⟩) rfl
  obtain ⟨h3, h4⟩ := h2 rfl
  exact ⟨h1, h3⟩

/-- C10: refetch always terminates in a resolved state - the try/catch/
finally structure absorbs every builder error into the snapshot error field
(so the returned promise fulfills; this covers the initial fetch done at
registration, which calls the same function), and loading is reset to false
on the success path and on the failure path alike. -/
theorem c10_refetch_always_fulfills :
    ∀ (s : LQState) (o : BuilderOutcome) (subs : List SubBehavior),
      (refetch s o subs).state.loading = false
      ∧ (∀ t touched, o = .fail t touched →
          (refetch s o subs).state.data = s.data
          ∧ (refetch s o subs).state.error = some (wrapThrown t)) := by
  intro s o subs
  constructor
  · cases o with
    | ok v touched =>
      rw [refetch_ok_eq]
      by_cases hd : deepEqualOpt s.data v = true
      · rw [if_pos hd]
      · rw [if_neg hd]
        cases hn : (notifySubscribers v subs).2 <;> rfl
    | fail t touched => rfl
  · intro t touched ho
    subst ho
    exact ⟨rfl, rfl⟩

theorem c10_refetch_always_fulfills_witness :
    (refetch initialLQState (.fail (.nonError "oops") []) []).state.loading = false
    ∧ (refetch initialLQState (.fail (.nonError "oops") []) []).state.data = none
    ∧ (refetch initialLQState (.fail (.nonError "oops") []) []).state.error = some ⟨"oops"⟩ := by
  obtain ⟨h1, h2⟩ := c10_refetch_always_fulfills initialLQState (.fail (.nonError "oops") []) []
  obtain ⟨h3, h4⟩ := h2 (.nonError "oops") [] rfl
  exact ⟨h1, h3, h4⟩

/-! Change-router claim (C3). -/

/-- C3 (counterexample): the claim says change events arriving during an
in-flight refetch are coalesced into exactly one follow-up refetch.  The
callback and the live-query record keep no in-flight or pending state, so
dispatch is identical whether or not a refetch is running: two change
events on a dependency table start two refetch invocations, not one. -/
theorem c3_coalescing_counterexample :
    processEvents [(1, ["users"])] ["users", "users"] = [[1], [1]]
    ∧ (processEvents [(1, ["users"])] ["users", "users"]).flatten.length = 2 :=
  ⟨rfl, rfl⟩

/-- C3 (amended): refetches are neither serialized nor coalesced - every
table-change callback immediately invokes refetch() on exactly the live
queries whose dependency set contains the lowercased table name, so n
matching change events produce n refetch invocations of the query. -/
theorem c3_no_coalescing_amended :
    ∀ (queries : List (Nat × List String)) (events : List String),
      processEvents queries events = events.map (onTablesChanged queries)
      ∧ ∀ (id : Nat) (deps : List String),
          (processEvents [(id, deps)] events).flatten.length
            = (events.filter (fun e => deps.any (fun dep => dep == lowerStr e))).length := by
  intro queries events
  refine ⟨rfl, ?_⟩
  intro id deps
  induction events with
  | nil => rfl
  | cons e es ih =>
    have hstep : processEvents [(id, deps)] (e :: es)
        = onTablesChanged [(id, deps)] e :: processEvents [(id, deps)] es := rfl
    rw [hstep, List.flatten_cons, List.length_append, ih, List.filter_cons]
    by_cases hp : deps.any (fun dep => dep == lowerStr e) = true
    · simp [onTablesChanged, List.filter_cons, hp]
      omega
    · simp [onTablesChanged, List.filter_cons, hp]

/-! Session claims (C7, C8). -/

/-- C7 (counterexample): the claim says one-time statements are finalized at
the end of their single execution even when the engine execution throws.
None of run/all/get/values has a try/finally, so a throwing engine call
skips the finalize: the one-time statement is finalized zero times, not
once. -/
theorem c7_finalize_on_error_counterexample :
    (PreparedQuery.run ⟨true, none⟩ (.fail ⟨"engine boom"⟩)).finalizeCalls = []
    ∧ (PreparedQuery.all ⟨true, none⟩ (.fail ⟨"engine boom"⟩)).finalizeCalls = []
    ∧ (PreparedQuery.get ⟨true, none⟩ (.fail ⟨"engine boom"⟩)).finalizeCalls = []
    ∧ (PreparedQuery.values ⟨true, none⟩ (.fail ⟨"engine boom"⟩)).finalizeCalls = []
    ∧ ([] : List (Option Nat)).length = 0 :=
  ⟨rfl, rfl, rfl, rfl, rfl⟩

/-- C7 (amended): a one-time statement is finalized exactly once at the end
of a successful execution in every mode, and not at all when the engine
call throws (the error propagates, the finalize line is never reached); a
long-lived statement performs no finalize during execution and is finalized
exactly once by the finalization-registry cleanup when collected. -/
theorem c7_finalize_amended :
    ∀ (q : PreparedQuery) (engine : EngineOutcome),
      (q.oneTime = true → engine = .ok →
        (q.run engine).finalizeCalls = [q.tx]
        ∧ (q.all engine).finalizeCalls = [q.tx]
        ∧ (q.get engine).finalizeCalls = [q.tx]
        ∧ (q.values engine).finalizeCalls = [q.tx])
      ∧ (∀ e, engine = .fail e →
          (q.run engine).finalizeCalls = []
          ∧ (q.all engine).finalizeCalls = []
          ∧ (q.get engine).finalizeCalls = []
          ∧ (q.values engine).finalizeCalls = [])
      ∧ (q.oneTime = false →
          (q.run engine).finalizeCalls = []
          ∧ (q.all engine).finalizeCalls = []
          ∧ (q.get engine).finalizeCalls = []
          ∧ (q.values engine).finalizeCalls = [])
      ∧ (registryCleanup q.tx).length = 1 := by
  intro q engine
  refine ⟨?_, ?_, ?_, rfl⟩
  · intro h1 h2
    subst h2
    simp [PreparedQuery.run, PreparedQuery.all, PreparedQuery.get, PreparedQuery.values, h1]
  · intro e he
    subst he
    exact ⟨rfl, rfl, rfl, rfl⟩
  · intro h0
    cases engine <;>
      simp [PreparedQuery.run, PreparedQuery.all, PreparedQuery.get, PreparedQuery.values, h0]

theorem c7_finalize_amended_witness :
    (PreparedQuery.run ⟨true, some 5⟩ .ok).finalizeCalls = [some 5]
    ∧ (PreparedQuery.values ⟨true, some 5⟩ (.fail ⟨"x"⟩)).finalizeCalls = []
    ∧ (PreparedQuery.get ⟨false, some 5⟩ .ok).finalizeCalls = []
    ∧ (registryCleanup (some 5)).length = 1 := by
  obtain ⟨h1, h2, h3, h4⟩ := c7_finalize_amended ⟨true, some 5⟩ .ok
  obtain ⟨g1, g2, g3, g4⟩ := c7_finalize_amended ⟨true, some 5⟩ (.fail ⟨"x"⟩)
  obtain ⟨k1, k2, k3, k4⟩ := c7_finalize_amended ⟨false, some 5⟩ .ok
  exact ⟨(h1 rfl rfl).1, (g2 ⟨"x"⟩ rfl).2.2.2, (k3 rfl).2.2.1, h4⟩

/-- C8: run, all and get dispatch through the bound transaction context,
but values passes null to the engine statement call, so with a bound
context (for example tx = 0) the values execution happens outside the
originating transaction, contradicting the bound-context invariant. -/
theorem c8_values_bypasses_tx :
    ∀ (q : PreparedQuery) (engine : EngineOutcome),
      (q.run engine).txUsed = q.tx
      ∧ (q.all engine).txUsed = q.tx
      ∧ (q.get engine).txUsed = q.tx
      ∧ (q.values engine).txUsed = none
      ∧ (PreparedQuery.values ⟨false, some 0⟩ .ok).txUsed = none := by
  intro q engine
  refine ⟨?_, ?_, ?_, ?_, rfl⟩ <;> cases engine <;> rfl

/-! Migrator lemmas and claim (C9). -/

theorem lastDbMigration_cons_none (r : MigRow) (rest : List MigRow)
    (h : lastDbMigration rest = none) : lastDbMigration (r :: rest) = some r := by
  rw [lastDbMigration, h]

theorem lastDbMigration_cons_some (r : MigRow) (rest : List MigRow) (m : MigRow)
    (h : lastDbMigration rest = some m) :
    lastDbMigration (r :: rest) = if m.created_at ≤ r.created_at then some r else some m := by
  rw [lastDbMigration, h]

theorem lastDbMigration_mem : ∀ (rows : List MigRow) (lm : MigRow),
    lastDbMigration rows = some lm → lm ∈ rows := by
  intro rows
  induction rows with
  | nil => intro lm h; simp [lastDbMigration] at h
  | cons r rest ih =>
    intro lm h
    cases hr : lastDbMigration rest with
    | none =>
      rw [lastDbMigration_cons_none r rest hr] at h
      simp only [Option.some.injEq] at h
      subst h
      exact List.mem_cons_self r rest
    | some m =>
      rw [lastDbMigration_cons_some r rest m hr] at h
      by_cases hc : m.created_at ≤ r.created_at
      · rw [if_pos hc] at h
        simp only [Option.some.injEq] at h
        subst h
        exact List.mem_cons_self r rest
      · rw [if_neg hc] at h
        simp only [Option.some.injEq] at h
        subst h
        exact List.mem_cons_of_mem r (ih m hr)

theorem lastDbMigration_ge : ∀ (rows : List MigRow) (r : MigRow), r ∈ rows →
    ∃ lm, lastDbMigration rows = some lm ∧ r.created_at ≤ lm.created_at := by
  intro rows
  induction rows with
  | nil => intro r h; simp at h
  | cons x rest ih =>
    intro r hmem
    rcases List.mem_cons.mp hmem with h1 | h2
    · subst h1
      cases hr : lastDbMigration rest with
      | none => exact ⟨r, lastDbMigration_cons_none r rest hr, le_refl _⟩
      | some m =>
        by_cases hc : m.created_at ≤ r.created_at
        · exact ⟨r, by rw [lastDbMigration_cons_some r rest m hr, if_pos hc], le_refl _⟩
        · exact ⟨m, by rw [lastDbMigration_cons_some r rest m hr, if_neg hc],
            le_of_lt (lt_of_not_le hc)⟩
    · obtain ⟨lm, hlm, hle⟩ := ih r h2
      by_cases hc : lm.created_at ≤ x.created_at
      · exact ⟨x, by rw [lastDbMigration_cons_some x rest lm hlm, if_pos hc], le_trans hle hc⟩
      · exact ⟨lm, by rw [lastDbMigration_cons_some x rest lm hlm, if_neg hc], hle⟩

theorem migrateLoop_spec (last : Option MigRow) (u : Nat → String) :
    ∀ (S : List MigrationMeta) (i : Nat) (rows : List MigRow),
      (migrateLoop last u i rows S).2 = S.filter (migCond last)
      ∧ (migrateLoop last u i rows S).1.map (fun r => (r.hash, r.created_at))
          = rows.map (fun r => (r.hash, r.created_at))
            ++ (S.filter (migCond last)).map (fun m => (m.hash, m.folderMillis)) := by
  intro S
  induction S with
  | nil => intro i rows; simp [migrateLoop]
  | cons m ms ih =>
    intro i rows
    by_cases hc : migCond last m = true
    · have h1 := ih (i + 1) (rows ++ [⟨u i, m.hash, m.folderMillis⟩])
      rw [migrateLoop, if_pos hc, List.filter_cons]
      simp only [hc, if_true]
      constructor
      · simpa using h1.1
      · simpa [List.map_append] using h1.2
    · have h1 := ih i rows
      rw [migrateLoop, if_neg hc, List.filter_cons]
      simp only [hc, Bool.false_eq_true, if_false]
      exact h1

theorem migrateLoop_rows_mono (last : Option MigRow) (u : Nat → String) :
    ∀ (S : List MigrationMeta) (i : Nat) (rows : List MigRow) (r : MigRow),
      r ∈ rows → r ∈ (migrateLoop last u i rows S).1 := by
  intro S
  induction S with
  | nil => intro i rows r h; simpa [migrateLoop] using h
  | cons m ms ih =>
    intro i rows r h
    by_cases hc : migCond last m = true
    · rw [migrateLoop, if_pos hc]
      exact ih (i + 1) (rows ++ [⟨u i, m.hash, m.folderMillis⟩]) r (List.mem_append_left _ h)
    · rw [migrateLoop, if_neg hc]
      exact ih i rows r h

theorem migrateLoop_noapply (last : Option MigRow) (u : Nat → String) :
    ∀ (S : List MigrationMeta) (i : Nat) (rows : List MigRow),
      (∀ m ∈ S, migCond last m = false) → migrateLoop last u i rows S = (rows, []) := by
  intro S
  induction S with
  | nil => intro i rows _; rfl
  | cons m ms ih =>
    intro i rows h
    have hc : migCond last m = false := h m (List.mem_cons_self m ms)
    rw [migrateLoop, if_neg (by simp [hc])]
    exact ih i rows (fun q hq => h q (List.mem_cons_of_mem m hq))

/-- C9: migrate applies exactly the migrations whose folderMillis is
strictly greater than the stored most-recent created_at (all of them when
the bookkeeping table is empty), inserts one (id, hash, created_at) row per
applied migration (hash and created_at taken from the migration), and is
idempotent: a second run with the same migration set applies nothing and
leaves the bookkeeping table unchanged. -/
theorem c9_migrate_idempotent :
    ∀ (rows : List MigRow) (S : List MigrationMeta) (u1 u2 : Nat → String),
      (migrate rows S u1).2 = S.filter (migCond (lastDbMigration rows))
      ∧ (migrate rows S u1).1.map (fun r => (r.hash, r.created_at))
          = rows.map (fun r => (r.hash, r.created_at))
            ++ ((migrate rows S u1).2.map (fun m => (m.hash, m.folderMillis)))
      ∧ (migrate (migrate rows S u1).1 S u2).2 = []
      ∧ (migrate (migrate rows S u1).1 S u2).1 = (migrate rows S u1).1 := by
  intro rows S u1 u2
  by_cases hS : S.isEmpty = true
  · have hnil : S = [] := by
      cases S with
      | nil => rfl
      | cons a l => simp [List.isEmpty] at hS
    subst hnil
    simp [migrate]
  · have hspec := migrateLoop_spec (lastDbMigration rows) u1 S 0 rows
    have hm1 : migrate rows S u1 = migrateLoop (lastDbMigration rows) u1 0 rows S := by
      rw [migrate, if_neg hS]
    have happlied : (migrate rows S u1).2 = S.filter (migCond (lastDbMigration rows)) := by
      rw [hm1]; exact hspec.1
    have hrows : (migrate rows S u1).1.map (fun r => (r.hash, r.created_at))
        = rows.map (fun r => (r.hash, r.created_at))
          ++ ((migrate rows S u1).2.map (fun m => (m.hash, m.folderMillis))) := by
      rw [hm1, hspec.1]; exact hspec.2
    have hcond : ∀ m ∈ S, migCond (lastDbMigration (migrate rows S u1).1) m = false := by
      intro m hmS
      by_cases hc : migCond (lastDbMigration rows) m = true
      · have hmf : m ∈ S.filter (migCond (lastDbMigration rows)) :=
          List.mem_filter.mpr ⟨hmS, hc⟩
        have hpair : (m.hash, m.folderMillis)
            ∈ (migrate rows S u1).1.map (fun r => (r.hash, r.created_at)) := by
          rw [hrows, happlied]
          exact List.mem_append_right _ (List.mem_map_of_mem _ hmf)
        obtain ⟨r1, hr1mem, hr1eq⟩ := List.mem_map.mp hpair
        have hr1c : r1.created_at = m.folderMillis := congrArg Prod.snd hr1eq
        obtain ⟨lm, hlm, hge⟩ := lastDbMigration_ge (migrate rows S u1).1 r1 hr1mem
        rw [hlm, migCond]
        simp only [decide_eq_false_iff_not, not_lt]
        rw [← hr1c]
        exact hge
      · have hc0 : migCond (lastDbMigration rows) m = false := by
          cases hb : migCond (lastDbMigration rows) m
          · rfl
          · exact absurd hb hc
        cases hl0 : lastDbMigration rows with
        | none => rw [hl0, migCond] at hc0; simp at hc0
        | some lm0 =>
          rw [hl0, migCond] at hc0
          simp only [decide_eq_false_iff_not, not_lt] at hc0
          have hmem0 : lm0 ∈ rows := lastDbMigration_mem rows lm0 hl0
          have hmem1 : lm0 ∈ (migrate rows S u1).1 := by
            rw [hm1]
            exact migrateLoop_rows_mono (lastDbMigration rows) u1 S 0 rows lm0 hmem0
          obtain ⟨lm, hlm, hge⟩ := lastDbMigration_ge (migrate rows S u1).1 lm0 hmem1
          rw [hlm, migCond]
          simp only [decide_eq_false_iff_not, not_lt]
          exact le_trans hc0 hge
    have hm2 : migrate (migrate rows S u1).1 S u2
        = migrateLoop (lastDbMigration (migrate rows S u1).1) u2 0 (migrate rows S u1).1 S := by
      rw [migrate, if_neg hS]
    have hno := migrateLoop_noapply (lastDbMigration (migrate rows S u1).1) u2 S 0
      (migrate rows S u1).1 hcond
    refine ⟨happlied, hrows, ?_, ?_⟩
    · rw [hm2, hno]
    · rw [hm2, hno]

/-! Decimal digit lemmas for the JSON model. -/

theorem digitVal_digitChar : ∀ k, k < 10 → digitVal (digitChar k) = k := by decide

theorem isDigitChar_digitChar : ∀ k, k < 10 → isDigitChar (digitChar k) = true := by decide

theorem digitChar_sep_facts : ∀ k, k < 10 →
    isWsChar (digitChar k) = false ∧ digitChar k ≠ 'n' ∧ digitChar k ≠ 't'
    ∧ digitChar k ≠ 'f' ∧ digitChar k ≠ '"' ∧ digitChar k ≠ '[' ∧ digitChar k ≠ '{'
    ∧ digitChar k ≠ ']' ∧ digitChar k ≠ '}' ∧ digitChar k ≠ '-' ∧ digitChar k ≠ '+' := by decide

theorem digitChar_ne_zero : ∀ k, 1 ≤ k → k < 10 → digitChar k ≠ '0' := by decide

theorem natDigitsF_append : ∀ (fuel n : Nat) (acc : List Char),
    natDigitsF fuel n acc = natDigitsF fuel n [] ++ acc := by
  intro fuel
  induction fuel with
  | zero => intro n acc; rfl
  | succ f ih =>
    intro n acc
    by_cases h : n < 10
    · simp [natDigitsF, h]
    · rw [natDigitsF, if_neg h, natDigitsF, if_neg h, ih (n / 10) (digitChar (n % 10) :: acc),
        ih (n / 10) [digitChar (n % 10)]]
      simp

theorem natDigitsF_all : ∀ (fuel n : Nat), n < fuel →
    ∀ c ∈ natDigitsF fuel n [], ∃ k, k < 10 ∧ c = digitChar k := by
  intro fuel
  induction fuel with
  | zero => intro n h; omega
  | succ f ih =>
    intro n hn c hc
    by_cases h : n < 10
    · rw [natDigitsF, if_pos h] at hc
      simp at hc
      exact ⟨n, h, hc⟩
    · rw [natDigitsF, if_neg h, natDigitsF_append] at hc
      rcases List.mem_append.mp hc with h1 | h2
      · exact ih (n / 10) (by omega) c h1
      · simp at h2
        exact ⟨n % 10, by omega, h2⟩

theorem natDigitsF_foldl : ∀ (fuel n : Nat), n < fuel →
    charsToNat (natDigitsF fuel n []) = n := by
  intro fuel
  induction fuel with
  | zero => intro n h; omega
  | succ f ih =>
    intro n hn
    by_cases h : n < 10
    · rw [natDigitsF, if_pos h]
      simp [charsToNat, digitVal_digitChar n h]
    · rw [natDigitsF, if_neg h, natDigitsF_append]
      have hrec := ih (n / 10) (by omega)
      simp only [charsToNat] at hrec ⊢
      rw [List.foldl_append, hrec]
      simp [digitVal_digitChar (n % 10) (by omega)]
      omega

theorem natDigitsF_head : ∀ (fuel n : Nat), n < fuel → 1 ≤ n →
    ∃ k ds, 1 ≤ k ∧ k < 10 ∧ natDigitsF fuel n [] = digitChar k :: ds := by
  intro fuel
  induction fuel with
  | zero => intro n h; omega
  | succ f ih =>
    intro n hn h1
    by_cases h : n < 10
    · exact ⟨n, [], h1, h, by rw [natDigitsF, if_pos h]⟩
    · obtain ⟨k, ds, hk1, hk2, heq⟩ := ih (n / 10) (by omega) (by omega)
      refine ⟨k, ds ++ [digitChar (n % 10)], hk1, hk2, ?_⟩
      rw [natDigitsF, if_neg h, natDigitsF_append, heq]
      simp

theorem natDigits_ne_nil (n : Nat) : natDigits n ≠ [] := by
  rw [natDigits]
  by_cases h : n < 10
  · rw [natDigitsF, if_pos h]; simp
  · rw [natDigitsF, if_neg h, natDigitsF_append]; simp

theorem natDigits_all (n : Nat) : ∀ c ∈ natDigits n, ∃ k, k < 10 ∧ c = digitChar k :=
  natDigitsF_all (n + 1) n (by omega)

theorem natDigits_foldl (n : Nat) : charsToNat (natDigits n) = n :=
  natDigitsF_foldl (n + 1) n (by omega)

theorem parseDigits_all : ∀ (ds : List Char) (acc : Nat) (rest : List Char),
    (∀ c ∈ ds, isDigitChar c = true) →
    parseDigits (ds ++ rest) acc = parseDigits rest (ds.foldl (fun a c => 10 * a + digitVal c) acc) := by
  intro ds
  induction ds with
  | nil => intro acc rest _; rfl
  | cons c cs ih =>
    intro acc rest h
    have hc : isDigitChar c = true := h c (List.mem_cons_self c cs)
    rw [List.cons_append, parseDigits, if_pos hc, ih (10 * acc + digitVal c) rest
      (fun d hd => h d (List.mem_cons_of_mem c hd))]
    rfl

theorem parseDigits_stop (acc : Nat) (rest : List Char) (h : digitStartB rest = false) :
    parseDigits rest acc = (acc, rest) := by
  cases rest with
  | nil => rfl
  | cons c cs =>
    rw [digitStartB] at h
    rw [parseDigits, if_neg (by simp [h])]

theorem parseNumBody_natDigits (m : Nat) (rest : List Char) (h : digitStartB rest = false) :
    parseNumBody (natDigits m ++ rest) = some (m, rest) := by
  by_cases hm : 1 ≤ m
  · obtain ⟨k, ds, hk1, hk2, heq0⟩ := natDigitsF_head (m + 1) m (by omega) hm
    have heq : natDigits m = digitChar k :: ds := heq0
    have hall := natDigits_all m
    have hds : ∀ c ∈ ds, isDigitChar c = true := by
      intro c hc
      obtain ⟨j, hj, hcj⟩ := hall c (by rw [heq]; exact List.mem_cons_of_mem _ hc)
      rw [hcj]; exact isDigitChar_digitChar j hj
    rw [heq, List.cons_append, parseNumBody,
      if_neg (digitChar_ne_zero k hk1 hk2), if_pos (isDigitChar_digitChar k hk2),
      parseDigits_all ds (digitVal (digitChar k)) rest hds, parseDigits_stop _ _ h]
    have hfold : ds.foldl (fun a c => 10 * a + digitVal c) (digitVal (digitChar k)) = m := by
      have hv := natDigits_foldl m
      rw [heq] at hv
      simp only [charsToNat, List.foldl_cons] at hv
      simpa using hv
    rw [hfold]
  · have hm0 : m = 0 := by omega
    subst hm0
    have h0 : natDigits 0 = ['0'] := rfl
    rw [h0]
    simp only [List.cons_append, List.nil_append]
    rw [parseNumBody, if_pos rfl, h]
    rfl

theorem intDecimal_head_facts : ∀ n : Int, ∃ c cs, intDecimal n = c :: cs
    ∧ isWsChar c = false ∧ c ≠ 'n' ∧ c ≠ 't' ∧ c ≠ 'f' ∧ c ≠ '"' ∧ c ≠ '[' ∧ c ≠ '{'
    ∧ c ≠ ']' ∧ c ≠ '}' := by
  intro n
  by_cases hneg : n < 0
  · exact ⟨'-', natDigits n.natAbs, by rw [intDecimal, if_pos hneg], by decide, by decide,
      by decide, by decide, by decide, by decide, by decide, by decide, by decide⟩
  · have : intDecimal n = natDigits n.toNat := by rw [intDecimal, if_neg hneg]
    cases hd : natDigits n.toNat with
    | nil => exact absurd hd (natDigits_ne_nil n.toNat)
    | cons c cs =>
      obtain ⟨k, hk, hck⟩ := natDigits_all n.toNat c (by rw [hd]; exact List.mem_cons_self c cs)
      obtain ⟨f1, f2, f3, f4, f5, f6, f7, f8, f9, _, _⟩ := digitChar_sep_facts k hk
      subst hck
      exact ⟨digitChar k, cs, by rw [this, hd], f1, f2, f3, f4, f5, f6, f7, f8, f9⟩

theorem parseNumber_intDecimal (n : Int) (rest : List Char) (h : digitStartB rest = false) :
    parseNumber (intDecimal n ++ rest) = some (n, rest) := by
  by_cases hneg : n < 0
  · rw [intDecimal, if_pos hneg, List.cons_append, parseNumber]
    rw [if_pos rfl, parseNumBody_natDigits n.natAbs rest h]
    simp only [Option.map_some']
    congr 1
    rw [Prod.mk.injEq]
    refine ⟨?_, rfl⟩
    omega
  · rw [intDecimal, if_neg hneg]
    cases hd : natDigits n.toNat with
    | nil => exact absurd hd (natDigits_ne_nil n.toNat)
    | cons c cs =>
      obtain ⟨k, hk, hck⟩ := natDigits_all n.toNat c (by rw [hd]; exact List.mem_cons_self c cs)
      rw [List.cons_append, parseNumber,
        if_neg (by subst hck; exact (digitChar_sep_facts k hk).2.2.2.2.2.2.2.2.2.1),
        ← List.cons_append, ← hd, parseNumBody_natDigits n.toNat rest h]
      simp only [Option.map_some']
      congr 1
      rw [Prod.mk.injEq]
      refine ⟨?_, rfl⟩
      omega

/-! String escaping lemmas for the JSON model. -/

theorem hexVal_hexDigit : ∀ k, k < 16 → hexVal (hexDigit k) = some k := by decide

theorem parseStringBody_esc_step (c : Char) (tail : List Char) :
    parseStringBody (escapeChar c ++ tail)
      = (parseStringBody tail).map (fun p => (c :: p.1, p.2)) := by
  by_cases h1 : c = '"'
  · subst h1; rfl
  by_cases h2 : c = '\\'
  · subst h2; rfl
  by_cases h3 : c = '\n'
  · subst h3; rfl
  by_cases h4 : c = '\r'
  · subst h4; rfl
  by_cases h5 : c = '\t'
  · subst h5; rfl
  by_cases h6 : c = '\x08'
  · subst h6; rfl
  by_cases h7 : c = '\x0c'
  · subst h7; rfl
  by_cases h8 : c.toNat < 32
  · rw [escapeChar, if_neg h1, if_neg h2, if_neg h3, if_neg h4, if_neg h5, if_neg h6, if_neg h7,
      if_pos h8]
    show parseStringBody ('\\' :: 'u' :: '0' :: '0' :: hexDigit (c.toNat / 16)
        :: hexDigit (c.toNat % 16) :: tail) = _
    rw [parseStringBody]
    rw [hexVal_hexDigit (c.toNat / 16) (by omega), hexVal_hexDigit (c.toNat % 16) (by omega)]
    have hx0 : hexVal '0' = some 0 := rfl
    rw [hx0]
    simp only []
    have hcode : ((0 * 16 + 0) * 16 + c.toNat / 16) * 16 + c.toNat % 16 = c.toNat := by omega
    rw [hcode, if_pos (Or.inl (by omega) : Nat.isValidChar c.toNat), Char.ofNat_toNat]
  · rw [escapeChar, if_neg h1, if_neg h2, if_neg h3, if_neg h4, if_neg h5, if_neg h6, if_neg h7,
      if_neg h8]
    show parseStringBody (c :: tail) = _
    rw [parseStringBody.eq_def]
    split
    · rename_i heq; simp at heq
    · rename_i heq
      injection heq with ha hb
      exact absurd ha h1
    · rename_i heq
      injection heq with ha hb
      exact absurd ha h2
    · rename_i heq
      injection heq with ha hb
      exact absurd ha h2
    · rename_i c2 rest heq
      injection heq with ha hb
      subst ha; subst hb
      rw [if_neg (by omega)]

theorem parseStringBody_escape : ∀ (cs rest : List Char),
    parseStringBody (escapeChars cs ++ '"' :: rest) = some (cs, rest) := by
  intro cs
  induction cs with
  | nil => intro rest; rfl
  | cons c cs ih =>
    intro rest
    rw [escapeChars, List.append_assoc, parseStringBody_esc_step, ih rest]
    rfl

/-! BigInt conversion lemmas. -/

theorem allDigits_natDigits (n : Nat) : allDigits (natDigits n) = true := by
  rw [allDigits, List.all_eq_true]
  intro c hc
  obtain ⟨k, hk, hck⟩ := natDigits_all n c hc
  rw [hck]
  exact isDigitChar_digitChar k hk

theorem natDigits_isEmpty (n : Nat) : (natDigits n).isEmpty = false := by
  cases hd : natDigits n with
  | nil => exact absurd hd (natDigits_ne_nil n)
  | cons a l => rfl

theorem jsBigIntChars_intDecimal (n : Int) : jsBigIntChars (intDecimal n) = some n := by
  by_cases hneg : n < 0
  · rw [intDecimal, if_pos hneg, jsBigIntChars, if_pos rfl,
      if_pos (by rw [allDigits_natDigits, natDigits_isEmpty]; rfl)]
    have hv : charsToNat (natDigits n.natAbs) = n.natAbs := natDigits_foldl n.natAbs
    rw [hv]
    congr 1
    omega
  · rw [intDecimal, if_neg hneg]
    cases hd : natDigits n.toNat with
    | nil => exact absurd hd (natDigits_ne_nil n.toNat)
    | cons c ds =>
      obtain ⟨k, hk, hck⟩ := natDigits_all n.toNat c (by rw [hd]; exact List.mem_cons_self c ds)
      obtain ⟨_, _, _, _, _, _, _, _, _, hdash, hplus⟩ := digitChar_sep_facts k hk
      rw [jsBigIntChars, if_neg (by rw [hck]; exact hdash), if_neg (by rw [hck]; exact hplus),
        if_pos (by rw [← hd]; exact allDigits_natDigits n.toNat)]
      have hv : charsToNat (natDigits n.toNat) = n.toNat := natDigits_foldl n.toNat
      rw [hd] at hv
      rw [hv]
      congr 1
      omega

/-! The reviver inverts the stringify replacer. -/

theorem jsval_size_pos (v : JsVal) : 1 ≤ sizeOf v := by cases v <;> simp_arith

theorem jslist_size_pos (l : JsList) : 1 ≤ sizeOf l := by cases l <;> simp_arith

theorem jsfields_size_pos (fs : JsFields) : 1 ≤ sizeOf fs := by cases fs <;> simp_arith

theorem revive_debig_bundle : ∀ N : Nat,
    (∀ v : JsVal, sizeOf v ≤ N → noBigintStrings v = true → revive (debig v) = .ok v)
    ∧ (∀ l : JsList, sizeOf l ≤ N → noBigintStringsList l = true →
        reviveList (debigList l) = .ok l)
    ∧ (∀ fs : JsFields, sizeOf fs ≤ N → noBigintStringsFields fs = true →
        reviveFields (debigFields fs) = .ok fs) := by
  intro N
  induction N with
  | zero =>
    refine ⟨fun v hv _ => absurd hv (by have := jsval_size_pos v; omega),
      fun l hl _ => absurd hl (by have := jslist_size_pos l; omega),
      fun fs hf _ => absurd hf (by have := jsfields_size_pos fs; omega)⟩
  | succ N ih =>
    obtain ⟨ihv, ihl, ihf⟩ := ih
    refine ⟨?_, ?_, ?_⟩
    · intro v hv hnb
      cases v with
      | jnull => rfl
      | jbool b => rfl
      | jnum n => rfl
      | jbig n =>
        show revive (.jstr ⟨"BIGINT::".data ++ intDecimal n⟩) = _
        rw [revive]
        have htag : hasBigintTag (String.mk ("BIGINT::".data ++ intDecimal n)).data = true := rfl
        rw [if_pos htag]
        have hdrop : (String.mk ("BIGINT::".data ++ intDecimal n)).data.drop 8 = intDecimal n := rfl
        rw [hdrop, jsBigIntChars_intDecimal n]
      | jstr s =>
        have hnb2 : hasBigintTag s.data = false := by
          rw [noBigintStrings] at hnb
          cases hb : hasBigintTag s.data
          · rfl
          · rw [hb] at hnb; simp at hnb
        show revive (.jstr s) = _
        rw [revive, if_neg (by simp [hnb2])]
      | jarr l =>
        have hl : sizeOf l ≤ N := by have : sizeOf (JsVal.jarr l) = 1 + sizeOf l := by simp_arith
                                     omega
        show revive (.jarr (debigList l)) = _
        rw [revive, ihl l hl (by rw [noBigintStrings] at hnb; exact hnb)]
        rfl
      | jobj fs =>
        have hf : sizeOf fs ≤ N := by have : sizeOf (JsVal.jobj fs) = 1 + sizeOf fs := by simp_arith
                                      omega
        show revive (.jobj (debigFields fs)) = _
        rw [revive, ihf fs hf (by rw [noBigintStrings] at hnb; exact hnb)]
        rfl
    · intro l hl hnb
      cases l with
      | nil => rfl
      | cons v vs =>
        have hsz : sizeOf (JsList.cons v vs) = 1 + sizeOf v + sizeOf vs := by simp_arith
        rw [noBigintStringsList, Bool.and_eq_true] at hnb
        show reviveList (.cons (debig v) (debigList vs)) = _
        rw [reviveList]
        rw [ihv v (by omega) hnb.1, ihl vs (by omega) hnb.2]
        rfl
    · intro fs hf hnb
      cases fs with
      | fnil => rfl
      | fcons k v tail =>
        have hsz : sizeOf (JsFields.fcons k v tail) = 1 + sizeOf k + sizeOf v + sizeOf tail := by
          simp_arith
        rw [noBigintStringsFields, Bool.and_eq_true] at hnb
        show reviveFields (.fcons k (debig v) (debigFields tail)) = _
        rw [reviveFields]
        rw [ihv v (by omega) hnb.1, ihf tail (by omega) hnb.2]
        rfl

/-! Parser step lemmas. -/

theorem skipWs_cons_nows (c : Char) (cs : List Char) (h : isWsChar c = false) :
    skipWs (c :: cs) = c :: cs := by rw [skipWs, if_neg (by simp [h])]

theorem parseJ_succ_str (f : Nat) (X : List Char) :
    parseJ (f + 1) ('"' :: X)
      = (parseStringBody X).map (fun p => (JsVal.jstr ⟨p.1⟩, p.2)) := rfl

theorem parseJ_succ_arr (f : Nat) (X : List Char) :
    parseJ (f + 1) ('[' :: X)
      = (match skipWs X with
         | [] => none
         | d :: ds =>
           if d = ']' then some (.jarr .nil, ds)
           else (parseJElems f (d :: ds)).map (fun p => (.jarr p.1, p.2))) := rfl

theorem parseJ_succ_obj (f : Nat) (X : List Char) :
    parseJ (f + 1) ('{' :: X)
      = (match skipWs X with
         | [] => none
         | d :: ds =>
           if d = '}' then some (.jobj .fnil, ds)
           else (parseJMembers f (d :: ds)).map (fun p => (.jobj p.1, p.2))) := rfl

theorem parseJElems_succ (f : Nat) (cs : List Char) :
    parseJElems (f + 1) cs
      = (match parseJ f cs with
         | none => none
         | some (v, rest) =>
           match skipWs rest with
           | ',' :: rest2 => (parseJElems f rest2).map (fun p => (JsList.cons v p.1, p.2))
           | ']' :: rest2 => some (.cons v .nil, rest2)
           | _ => none) := rfl

theorem parseJMembers_succ (f : Nat) (cs : List Char) :
    parseJMembers (f + 1) cs
      = (match skipWs cs with
         | '"' :: rest =>
           (match parseStringBody rest with
            | none => none
            | some (k, rest2) =>
              match skipWs rest2 with
              | ':' :: rest3 =>
                (match parseJ f rest3 with
                 | none => none
                 | some (v, rest4) =>
                   match skipWs rest4 with
                   | ',' :: rest5 =>
                     (parseJMembers f rest5).map (fun p => (JsFields.fcons ⟨k⟩ v p.1, p.2))
                   | '}' :: rest5 => some (.fcons ⟨k⟩ v .fnil, rest5)
                   | _ => none)
              | _ => none)
         | _ => none) := rfl

theorem parseJ_succ_num (f : Nat) (c : Char) (cs : List Char) (hws : isWsChar c = false)
    (h1 : c ≠ 'n') (h2 : c ≠ 't') (h3 : c ≠ 'f') (h4 : c ≠ '"') (h5 : c ≠ '[') (h6 : c ≠ '{') :
    parseJ (f + 1) (c :: cs) = (parseNumber (c :: cs)).map (fun p => (JsVal.jnum p.1, p.2)) := by
  show (match skipWs (c :: cs) with
        | [] => none
        | c :: cs =>
          if c = 'n' then (matchChars ['u', 'l', 'l'] cs).map (fun r => (JsVal.jnull, r))
          else if c = 't' then (matchChars ['r', 'u', 'e'] cs).map (fun r => (JsVal.jbool true, r))
          else if c = 'f' then
            (matchChars ['a', 'l', 's', 'e'] cs).map (fun r => (JsVal.jbool false, r))
          else if c = '"' then
            (parseStringBody cs).map (fun (p : List Char × List Char) => (JsVal.jstr ⟨p.1⟩, p.2))
          else if c = '[' then
            (match skipWs cs with
             | [] => none
             | d :: ds =>
               if d = ']' then some (.jarr .nil, ds)
               else (parseJElems f (d :: ds)).map
                 (fun (p : JsList × List Char) => (JsVal.jarr p.1, p.2)))
          else if c = '{' then
            (match skipWs cs with
             | [] => none
             | d :: ds =>
               if d = '}' then some (.jobj .fnil, ds)
               else (parseJMembers f (d :: ds)).map
                 (fun (p : JsFields × List Char) => (JsVal.jobj p.1, p.2)))
          else (parseNumber (c :: cs)).map (fun (p : Int × List Char) => (JsVal.jnum p.1, p.2)))
      = _
  rw [skipWs_cons_nows c cs hws]
  simp only []
  rw [if_neg h1, if_neg h2, if_neg h3, if_neg h4, if_neg h5, if_neg h6]

/-! Head-character facts about the serializer output. -/

theorem emitJ_head_facts : ∀ v : JsVal, ∃ c cs, emitJ v = c :: cs
    ∧ isWsChar c = false ∧ c ≠ ']' ∧ c ≠ '}' := by
  intro v
  cases v with
  | jnull => exact ⟨'n', _, rfl, by decide, by decide, by decide⟩
  | jbool b =>
    cases b
    · exact ⟨'f', _, rfl, by decide, by decide, by decide⟩
    · exact ⟨'t', _, rfl, by decide, by decide, by decide⟩
  | jnum n =>
    obtain ⟨c, cs, heq, hws, _, _, _, _, _, _, h8, h9⟩ := intDecimal_head_facts n
    exact ⟨c, cs, heq, hws, h8, h9⟩
  | jstr s => exact ⟨'"', _, rfl, by decide, by decide, by decide⟩
  | jbig n => exact ⟨'"', _, rfl, by decide, by decide, by decide⟩
  | jarr l => exact ⟨'[', _, rfl, by decide, by decide, by decide⟩
  | jobj fs => exact ⟨'{', _, rfl, by decide, by decide, by decide⟩

theorem emitJ_length_pos (v : JsVal) : 1 ≤ (emitJ v).length := by
  obtain ⟨c, cs, heq, _, _, _⟩ := emitJ_head_facts v
  rw [heq]
  simp

theorem emitElems_cons_head : ∀ (hd : JsVal) (tl : JsList), ∃ c cs2,
    emitElems (JsList.cons hd tl) = c :: cs2 ∧ isWsChar c = false ∧ c ≠ ']' ∧ c ≠ '}' := by
  intro hd tl
  obtain ⟨c, cs, heq, hws, h1, h2⟩ := emitJ_head_facts hd
  cases tl with
  | nil => exact ⟨c, cs, heq, hws, h1, h2⟩
  | cons w ws =>
    refine ⟨c, cs ++ ',' :: emitElems (JsList.cons w ws), ?_, hws, h1, h2⟩
    show emitJ hd ++ ',' :: emitElems (JsList.cons w ws) = _
    rw [heq, List.cons_append]

/-! The parser inverts the serializer (up to the bigint pre-image debig). -/

theorem parse_emit_bundle : ∀ N : Nat,
    (∀ v : JsVal, sizeOf v ≤ N → ∀ (fuel : Nat) (rest : List Char),
       (emitJ v).length ≤ fuel → digitStartB rest = false →
       parseJ fuel (emitJ v ++ rest) = some (debig v, rest))
    ∧ (∀ l : JsList, sizeOf l ≤ N → l ≠ .nil → ∀ (fuel : Nat) (rest : List Char),
       (emitElems l).length + 1 ≤ fuel →
       parseJElems fuel (emitElems l ++ ']' :: rest) = some (debigList l, rest))
    ∧ (∀ fs : JsFields, sizeOf fs ≤ N → fs ≠ .fnil → ∀ (fuel : Nat) (rest : List Char),
       (emitMembers fs).length + 1 ≤ fuel →
       parseJMembers fuel (emitMembers fs ++ '}' :: rest) = some (debigFields fs, rest)) := by
  intro N
  induction N with
  | zero =>
    refine ⟨fun v hv => absurd hv (by have := jsval_size_pos v; omega),
      fun l hl => absurd hl (by have := jslist_size_pos l; omega),
      fun fs hf => absurd hf (by have := jsfields_size_pos fs; omega)⟩
  | succ N ih =>
    obtain ⟨ihv, ihl, ihf⟩ := ih
    refine ⟨?_, ?_, ?_⟩
    · intro v hv fuel rest hfuel hrest
      cases v with
      | jnull =>
        obtain ⟨f, rfl⟩ : ∃ f, fuel = f + 1 :=
          ⟨fuel - 1, by simp [emitJ] at hfuel; omega⟩
        rfl
      | jbool b =>
        cases b with
        | true =>
          obtain ⟨f, rfl⟩ : ∃ f, fuel = f + 1 :=
            ⟨fuel - 1, by simp [emitJ] at hfuel; omega⟩
          rfl
        | false =>
          obtain ⟨f, rfl⟩ : ∃ f, fuel = f + 1 :=
            ⟨fuel - 1, by simp [emitJ] at hfuel; omega⟩
          rfl
      | jnum n =>
        obtain ⟨f, rfl⟩ : ∃ f, fuel = f + 1 :=
          ⟨fuel - 1, by have := emitJ_length_pos (JsVal.jnum n); omega⟩
        obtain ⟨c, cs, heq, hws, f2, f3, f4, f5, f6, f7, _, _⟩ := intDecimal_head_facts n
        show parseJ (f + 1) (intDecimal n ++ rest) = _
        rw [heq, List.cons_append, parseJ_succ_num f c (cs ++ rest) hws f2 f3 f4 f5 f6 f7,
          ← List.cons_append, ← heq, parseNumber_intDecimal n rest hrest]
        rfl
      | jstr s =>
        obtain ⟨f, rfl⟩ : ∃ f, fuel = f + 1 :=
          ⟨fuel - 1, by have := emitJ_length_pos (JsVal.jstr s); omega⟩
        have harr : emitJ (JsVal.jstr s) ++ rest = '"' :: (escapeChars s.data ++ '"' :: rest) := by
          show ('"' :: (escapeChars s.data ++ ['"'])) ++ rest = _
          simp
        rw [harr, parseJ_succ_str, parseStringBody_escape]
        rfl
      | jbig n =>
        obtain ⟨f, rfl⟩ : ∃ f, fuel = f + 1 :=
          ⟨fuel - 1, by have := emitJ_length_pos (JsVal.jbig n); omega⟩
        have harr : emitJ (JsVal.jbig n) ++ rest
            = '"' :: (escapeChars ("BIGINT::".data ++ intDecimal n) ++ '"' :: rest) := by
          show ('"' :: (escapeChars ("BIGINT::".data ++ intDecimal n) ++ ['"'])) ++ rest = _
          simp
        rw [harr, parseJ_succ_str, parseStringBody_escape]
        rfl
      | jarr l =>
        obtain ⟨f, rfl⟩ : ∃ f, fuel = f + 1 :=
          ⟨fuel - 1, by have := emitJ_length_pos (JsVal.jarr l); omega⟩
        have hlen : (emitJ (JsVal.jarr l)).length = (emitElems l).length + 2 := by
          show ('[' :: (emitElems l ++ [']'])).length = _
          simp
        have harr : emitJ (JsVal.jarr l) ++ rest = '[' :: (emitElems l ++ ']' :: rest) := by
          show ('[' :: (emitElems l ++ [']'])) ++ rest = _
          simp
        rw [harr, parseJ_succ_arr]
        cases l with
        | nil => rfl
        | cons hd tl =>
          obtain ⟨c, cs2, heq, hws, hne1, _⟩ := emitElems_cons_head hd tl
          rw [heq, List.cons_append, skipWs_cons_nows c _ hws]
          simp only []
          rw [if_neg hne1, ← List.cons_append, ← heq]
          have hszl : sizeOf (JsList.cons hd tl) ≤ N := by
            have : sizeOf (JsVal.jarr (JsList.cons hd tl)) = 1 + sizeOf (JsList.cons hd tl) := by
              simp_arith
            omega
          rw [ihl (JsList.cons hd tl) hszl (by simp) f rest (by rw [hlen] at hfuel; omega)]
          rfl
      | jobj fs =>
        obtain ⟨f, rfl⟩ : ∃ f, fuel = f + 1 :=
          ⟨fuel - 1, by have := emitJ_length_pos (JsVal.jobj fs); omega⟩
        have hlen : (emitJ (JsVal.jobj fs)).length = (emitMembers fs).length + 2 := by
          show ('{' :: (emitMembers fs ++ ['}'])).length = _
          simp
        have harr : emitJ (JsVal.jobj fs) ++ rest = '{' :: (emitMembers fs ++ '}' :: rest) := by
          show ('{' :: (emitMembers fs ++ ['}'])) ++ rest = _
          simp
        rw [harr, parseJ_succ_obj]
        cases fs with
        | fnil => rfl
        | fcons k hd tl =>
          have hm : emitMembers (JsFields.fcons k hd tl)
              = '"' :: (match tl with
                 | JsFields.fnil => escapeChars k.data ++ '"' :: ':' :: emitJ hd
                 | JsFields.fcons k2 v2 t2 =>
                   (escapeChars k.data ++ '"' :: ':' :: emitJ hd)
                     ++ ',' :: emitMembers (JsFields.fcons k2 v2 t2)) := by
            cases tl <;> rfl
          rw [hm, List.cons_append, skipWs_cons_nows '"' _ (by decide)]
          simp only []
          rw [if_neg (by decide : ¬('"' = '}')), ← List.cons_append, ← hm]
          have hszf : sizeOf (JsFields.fcons k hd tl) ≤ N := by
            have : sizeOf (JsVal.jobj (JsFields.fcons k hd tl))
                = 1 + sizeOf (JsFields.fcons k hd tl) := by simp_arith
            omega
          rw [ihf (JsFields.fcons k hd tl) hszf (by simp) f rest (by rw [hlen] at hfuel; omega)]
          rfl
    · intro l hl hne fuel rest hfuel
      cases l with
      | nil => exact absurd rfl hne
      | cons v vs =>
        obtain ⟨f, rfl⟩ : ∃ f, fuel = f + 1 := ⟨fuel - 1, by omega⟩
        rw [parseJElems_succ]
        have hsz : sizeOf (JsList.cons v vs) = 1 + sizeOf v + sizeOf vs := by simp_arith
        cases vs with
        | nil =>
          have hemit : emitElems (JsList.cons v .nil) = emitJ v := rfl
          rw [hemit]
          have hlen2 : (emitElems (JsList.cons v JsList.nil)).length = (emitJ v).length := rfl
          rw [ihv v (by omega) f (']' :: rest) (by rw [hlen2] at hfuel; omega) rfl]
          rfl
        | cons w ws =>
          have hemit : emitElems (JsList.cons v (JsList.cons w ws))
              = emitJ v ++ ',' :: emitElems (JsList.cons w ws) := rfl
          have hlen2 : (emitElems (JsList.cons v (JsList.cons w ws))).length
              = (emitJ v).length + 1 + (emitElems (JsList.cons w ws)).length := by
            rw [hemit]; simp; omega
          rw [hemit, List.append_assoc, List.cons_append]
          rw [ihv v (by omega) f (',' :: (emitElems (JsList.cons w ws) ++ ']' :: rest))
            (by rw [hlen2] at hfuel; omega) rfl]
          simp only []
          rw [skipWs_cons_nows ',' _ (by decide)]
          simp only []
          have hws2 : sizeOf (JsList.cons w ws) ≤ N := by
            have := jsval_size_pos v; omega
          have hvpos := emitJ_length_pos v
          rw [ihl (JsList.cons w ws) hws2 (by simp) f rest (by rw [hlen2] at hfuel; omega)]
          rfl
    · intro fs hf hne fuel rest hfuel
      cases fs with
      | fnil => exact absurd rfl hne
      | fcons k v tl =>
        obtain ⟨f, rfl⟩ : ∃ f, fuel = f + 1 := ⟨fuel - 1, by omega⟩
        rw [parseJMembers_succ]
        have hsz : sizeOf (JsFields.fcons k v tl) = 1 + sizeOf k + sizeOf v + sizeOf tl := by
          simp_arith
        cases tl with
        | fnil =>
          have hm : emitMembers (JsFields.fcons k v .fnil) ++ '}' :: rest
              = '"' :: (escapeChars k.data ++ '"' :: ':' :: (emitJ v ++ '}' :: rest)) := by
            show ('"' :: (escapeChars k.data ++ '"' :: ':' :: emitJ v)) ++ '}' :: rest = _
            simp
          have hlen2 : (emitMembers (JsFields.fcons k v JsFields.fnil)).length
              = (escapeChars k.data).length + 3 + (emitJ v).length := by
            show ('"' :: (escapeChars k.data ++ '"' :: ':' :: emitJ v)).length = _
            simp
            omega
          rw [hm, skipWs_cons_nows '"' _ (by decide)]
          simp only []
          rw [parseStringBody_escape k.data (':' :: (emitJ v ++ '}' :: rest))]
          simp only []
          rw [skipWs_cons_nows ':' _ (by decide)]
          simp only []
          rw [ihv v (by omega) f ('}' :: rest) (by rw [hlen2] at hfuel; omega) rfl]
          rfl
        | fcons k2 v2 t2 =>
          have hm : emitMembers (JsFields.fcons k v (JsFields.fcons k2 v2 t2)) ++ '}' :: rest
              = '"' :: (escapeChars k.data ++ '"' :: ':' :: (emitJ v
                  ++ ',' :: (emitMembers (JsFields.fcons k2 v2 t2) ++ '}' :: rest))) := by
            show (('"' :: (escapeChars k.data ++ '"' :: ':' :: emitJ v))
                ++ ',' :: emitMembers (JsFields.fcons k2 v2 t2)) ++ '}' :: rest = _
            simp
          have hlen2 : (emitMembers (JsFields.fcons k v (JsFields.fcons k2 v2 t2))).length
              = (escapeChars k.data).length + 3 + (emitJ v).length
                + 1 + (emitMembers (JsFields.fcons k2 v2 t2)).length := by
            show (('"' :: (escapeChars k.data ++ '"' :: ':' :: emitJ v))
                ++ ',' :: emitMembers (JsFields.fcons k2 v2 t2)).length = _
            simp
            omega
          rw [hm, skipWs_cons_nows '"' _ (by decide)]
          simp only []
          rw [parseStringBody_escape k.data
            (':' :: (emitJ v ++ ',' :: (emitMembers (JsFields.fcons k2 v2 t2) ++ '}' :: rest)))]
          simp only []
          rw [skipWs_cons_nows ':' _ (by decide)]
          simp only []
          rw [ihv v (by omega) f
            (',' :: (emitMembers (JsFields.fcons k2 v2 t2) ++ '}' :: rest))
            (by rw [hlen2] at hfuel; omega) rfl]
          simp only []
          rw [skipWs_cons_nows ',' _ (by decide)]
          simp only []
          have hszt : sizeOf (JsFields.fcons k2 v2 t2) ≤ N := by
            have := jsval_size_pos v; omega
          have hepos : 1 ≤ (escapeChars k.data).length + 3 + (emitJ v).length := by omega
          rw [ihf (JsFields.fcons k2 v2 t2) hszt (by simp) f rest
            (by rw [hlen2] at hfuel; omega)]
          rfl

theorem roundtrip_general : ∀ v : JsVal, noBigintStrings v = true →
    jsonParseWithBigInt (jsonStringifyWithBigInt v) = .ok v := by
  intro v hnb
  have hp := (parse_emit_bundle (sizeOf v)).1 v (le_refl _) ((emitJ v).length + 1) []
    (by omega) rfl
  have hp2 : parseJ ((emitJ v).length + 1) (emitJ v) = some (debig v, []) := by
    simpa using hp
  have hparse : jsonParse (jsonStringifyWithBigInt v) = some (debig v) := by
    rw [jsonParse]
    have hdata : (jsonStringifyWithBigInt v).data = emitJ v := rfl
    rw [hdata, hp2]
    rfl
  rw [jsonParseWithBigInt, hparse]
  simp only []
  rw [(revive_debig_bundle (sizeOf v)).1 v (le_refl _) hnb]

/-! Claim theorems for the changeset layer (C5, C6). -/

/-- C5 (counterexample): the claim says malformed JSON raises the
InvalidChangeset error with the fixed message.  It does not: the JSON parse
error escapes jsonParseWithBigInt before the validation runs, so the raised
error is the SyntaxError of the parse, not the Error with the
Invalid-changeset message. -/
theorem c5_invalid_message_counterexample :
    applyChangeset "this is not json" = .error .parseError
    ∧ ¬(applyChangeset "this is not json" = .error (.invalid invalidChangesetMsg)) := by
  refine ⟨rfl, ?_⟩
  intro h
  have h2 : (Except.error ApplyError.parseError : Except ApplyError JsVal)
      = .error (.invalid invalidChangesetMsg) := by rw [← h]; rfl
  simp at h2

/-- C5 (amended): applyChangeset raises the InvalidChangeset error with the
message exactly when the parse succeeded but the parsed value is not an
array of length-8 arrays; malformed JSON (or a failing bigint revival)
raises the parse error unchanged, which is never the InvalidChangeset
error; in both error cases engine.applyChanges is not called, so the
database is unchanged, and on success the engine receives exactly the
parsed tuples. -/
theorem c5_apply_changeset_amended :
    ∀ s : String,
      (∀ e, jsonParseWithBigInt s = .error e →
        applyChangeset s = .error e ∧ ∀ m, e ≠ .invalid m)
      ∧ (∀ v, jsonParseWithBigInt s = .ok v → isChangesetShape v = false →
          applyChangeset s = .error (.invalid invalidChangesetMsg))
      ∧ (∀ v, jsonParseWithBigInt s = .ok v → isChangesetShape v = true →
          applyChangeset s = .ok v) := by
  intro s
  refine ⟨?_, ?_, ?_⟩
  · intro e he
    constructor
    · rw [applyChangeset, he]
    · intro m hem
      rw [hem] at he
      rw [jsonParseWithBigInt] at he
      split at he
      · simp at he
      · split at he
        · simp at he
        · simp at he
  · intro v hv hshape
    rw [applyChangeset, hv]
    simp [hshape]
  · intro v hv hshape
    rw [applyChangeset, hv]
    simp [hshape]

theorem c5_apply_changeset_amended_witness :
    applyChangeset "x" = .error .parseError
    ∧ applyChangeset "\x7b\"not\":\"a changeset\"\x7d" = .error (.invalid invalidChangesetMsg) := by
  have h1 := (c5_apply_changeset_amended "x").1 .parseError rfl
  have h2 := (c5_apply_changeset_amended "\x7b\"not\":\"a changeset\"\x7d").2.1
    (.jobj (.fcons ⟨"not".data⟩ (.jstr ⟨"a changeset".data⟩) .fnil)) rfl rfl
  exact ⟨h1.1, h2⟩

/-- C6 (counterexample): the claim says deserializing the serialized form of
any changeset yields the original.  A changeset whose value position holds
the plain string BIGINT::7 breaks this: the string serializes to the same
bytes as the encoding of the bigint 7, so the reviver turns it into the
bigint 7 and the round trip returns a different changeset. -/
theorem c6_roundtrip_counterexample :
    jsonParseWithBigInt (jsonStringifyWithBigInt (changesetToJsVal
      [⟨.jstr "t", .jstr "pk", 1, 2, 3, .jnum 0, .jnum 0, .jstr "BIGINT::7"⟩]))
      = .ok (changesetToJsVal [⟨.jstr "t", .jstr "pk", 1, 2, 3, .jnum 0, .jnum 0, .jbig 7⟩])
    ∧ ¬(jsonParseWithBigInt (jsonStringifyWithBigInt (changesetToJsVal
      [⟨.jstr "t", .jstr "pk", 1, 2, 3, .jnum 0, .jnum 0, .jstr "BIGINT::7"⟩]))
      = .ok (changesetToJsVal
        [⟨.jstr "t", .jstr "pk", 1, 2, 3, .jnum 0, .jnum 0, .jstr "BIGINT::7"⟩])) := by
  refine ⟨rfl, ?_⟩
  intro h
  have h2 : (Except.ok (changesetToJsVal
        [⟨.jstr "t", .jstr "pk", 1, 2, 3, .jnum 0, .jnum 0, .jbig 7⟩]) : Except ApplyError JsVal)
      = .ok (changesetToJsVal
        [⟨.jstr "t", .jstr "pk", 1, 2, 3, .jnum 0, .jnum 0, .jstr "BIGINT::7"⟩]) := by
    rw [← h]
    rfl
  simp [changesetToJsVal, ChangeTuple.toJsVal, JsList.ofList] at h2

/-- C6 (amended): for every changeset whose JSON-shaped components contain
no string starting with BIGINT:: (strings of that shape collide with the
bigint wire encoding), deserializing the serialized form yields the
original changeset, bigint positions included; and the empty changeset
serializes to the two-character string of an empty JSON array. -/
theorem c6_changeset_roundtrip_amended :
    (∀ ts : List ChangeTuple, noBigintStrings (changesetToJsVal ts) = true →
      jsonParseWithBigInt (jsonStringifyWithBigInt (changesetToJsVal ts))
        = .ok (changesetToJsVal ts))
    ∧ getChangeset [] = "[]" :=
  ⟨fun ts h => roundtrip_general (changesetToJsVal ts) h, rfl⟩

theorem c6_changeset_roundtrip_amended_witness :
    jsonParseWithBigInt (jsonStringifyWithBigInt (changesetToJsVal
      [⟨.jstr "t", .jstr "pk", 1, 2, 3, .jnum 0, .jnum 0, .jstr "x"⟩]))
      = .ok (changesetToJsVal [⟨.jstr "t", .jstr "pk", 1, 2, 3, .jnum 0, .jnum 0, .jstr "x"⟩])
    ∧ getChangeset [] = "[]" :=
  ⟨c6_changeset_roundtrip_amended.1
    [⟨.jstr "t", .jstr "pk", 1, 2, 3, .jnum 0, .jnum 0, .jstr "x"⟩] rfl,
   c6_changeset_roundtrip_amended.2⟩
